import Mathlib

/-!
Verification development for the autohome car-catalog parser.

Shallow embedding of the parts of the code base that the verified
properties speak about:

* `app/photo_downloader.py` — image-signature validation and the
  `download_image` fetch/validate/retry loop;
* `app/main.py` — the per-unit retry wrappers of the pipeline stages;
* `app/panorama_parser.py` — the panorama ext-id resolver
  `find_ext_id_for_spec`;
* `app/repository.py` — the upsert/reconciliation layer.

Conventions: byte strings are modelled as `List Nat`, machine dictionaries
rows as Lean structures, a fallible call as an `Option` result (`none`
models a raised exception), the relational store as a `List` of row
structures in insertion order.  Audit timestamp columns
(`created_at` / `updated_at`) and logging are outside the model.
-/

/-! ## String helpers

Char-list-level models of the python string operations used by the code:
`str.lower` (ASCII range — all strings the classifiers test against are
ASCII) and `str.split("\n")[0]`. -/

/-- ASCII lower-casing of one character, as `str.lower` acts on ASCII. -/
def pyCharLower (c : Char) : Char :=
  if 'A' ≤ c ∧ c ≤ 'Z' then Char.ofNat (c.toNat + 32) else c

/-- Model of `s.lower()` on ASCII text. -/
def pyLower (s : String) : String := String.mk (s.toList.map pyCharLower)

/-- Characters of the first line: everything before the first newline. -/
def firstLineChars : List Char → List Char
  | [] => []
  | c :: rest => if c = '\n' then [] else c :: firstLineChars rest

/-- Model of `s.split("\n")[0]`. -/
def firstLine (s : String) : String := String.mk (firstLineChars s.toList)

/-- Model of `s.startswith(pat)`. -/
def pyStartsWith (s pat : String) : Bool := pat.toList.isPrefixOf s.toList

/-- Python slicing `s[:n]` (by characters). -/
def pyTrunc (n : Nat) (s : String) : String := String.mk (s.toList.take n)

/-! ## photo_downloader.py -/

/-- Minimal image size in bytes (`_MIN_IMAGE_SIZE = 1024`). -/
def MIN_IMAGE_SIZE : Nat := 1024

/-- JPEG magic bytes. -/
def jpegSig : List Nat := [0xff, 0xd8, 0xff]

/-- PNG magic bytes. -/
def pngSig : List Nat := [0x89, 0x50, 0x4e, 0x47]

/-- GIF magic bytes. -/
def gifSig : List Nat := [0x47, 0x49, 0x46, 0x38]

/-- RIFF container magic bytes. -/
def riffSig : List Nat := [0x52, 0x49, 0x46, 0x46]

/-- The WEBP sub-type tag expected at bytes 8..12 of a RIFF container. -/
def webpTag : List Nat := [0x57, 0x45, 0x42, 0x50]

/-- Iteration order of `_IMAGE_SIGNATURES` (a dict, hence insertion order). -/
def IMAGE_SIGNATURES : List (List Nat) := [jpegSig, pngSig, gifSig, riffSig]

/-- The signature loop of `_is_valid_image_content`: try each signature in
order; on a RIFF prefix with at least 12 bytes whose sub-type tag is not
WEBP the loop continues to the next signature. -/
def sigLoop (data : List Nat) : List (List Nat) → Bool
  | [] => false
  | sig :: rest =>
    if sig.isPrefixOf data then
      if sig = riffSig ∧ 12 ≤ data.length ∧ (data.drop 8).take 4 ≠ webpTag then
        sigLoop data rest
      else
        true
    else
      sigLoop data rest

/-- Model of `_is_valid_image_content(data)`: data shorter than 4 bytes is rejected,
otherwise the signature loop decides. -/
def is_valid_image_content (data : List Nat) : Bool :=
  if data.length < 4 then false else sigLoop data IMAGE_SIGNATURES

/-- One fetch attempt as observed by `download_image`: either a
network-level exception (from `requests.get` / `raise_for_status`), or a
response carrying the declared Content-Type, the body bytes, and whether
writing the file to disk succeeds (an `IOError` during the write is also
caught by the retry loop). -/
inductive FetchOutcome where
  | netError
  | resp (contentType : Option String) (body : List Nat) (writeOk : Bool)
deriving DecidableEq

/-- Observable trace of one `download_image` call. `attempts` counts loop
iterations that issued an HTTP request, `sleeps` the backoff delays in
milliseconds in order, `deletedExisting` whether the pre-existing file was
unlinked, `wrote` the content written to disk (if any). -/
structure DownloadTrace where
  success : Bool
  attempts : Nat
  sleeps : List Nat
  deletedExisting : Bool
  wrote : Option (List Nat)
deriving DecidableEq

/-- The `for attempt in range(max_retries)` fetch loop of `download_image`.
`attempt` is the 0-based python loop index, `remaining` the number of
iterations left (`remaining = max_retries - attempt`); the python guard
`attempt < max_retries - 1` is `0 < remaining - 1`, i.e. `1 < remaining`.
A validation failure returns `False` immediately; only a network-level
exception (including a failed write) continues the loop, sleeping
`0.5s × (attempt+1)` (here in ms) when further attempts remain. -/
def fetchLoop (env : Nat → FetchOutcome) (attempt : Nat) : Nat → DownloadTrace
  | 0 => ⟨false, 0, [], false, none⟩
  | remaining + 1 =>
    match env attempt with
    | .resp ct body writeOk =>
      let ctype := pyLower (ct.getD (""))
      if ctype ≠ "" ∧ ¬ pyStartsWith ctype ("image/") then
        ⟨false, 1, [], false, none⟩
      else if body.length < MIN_IMAGE_SIZE then
        ⟨false, 1, [], false, none⟩
      else if ¬ is_valid_image_content (body.take 12) then
        ⟨false, 1, [], false, none⟩
      else if writeOk then
        ⟨true, 1, [], false, some body⟩
      else
        let t := fetchLoop env (attempt + 1) remaining
        ⟨t.success, t.attempts + 1,
          (if 0 < remaining then [500 * (attempt + 1)] else []) ++ t.sleeps,
          false, t.wrote⟩
    | .netError =>
      let t := fetchLoop env (attempt + 1) remaining
      ⟨t.success, t.attempts + 1,
        (if 0 < remaining then [500 * (attempt + 1)] else []) ++ t.sleeps,
        false, t.wrote⟩

/-- Model of `download_image(url, file_path)` with `max_retries = 3`.  `file` is the
content of the destination if it exists (`none` if absent).  The pre-fetch
check validates an existing file in place (size, then the first 12 header
bytes) and deletes it when either check fails. -/
def download_image (file : Option (List Nat)) (env : Nat → FetchOutcome) :
    DownloadTrace :=
  match file with
  | some content =>
    if content.length < MIN_IMAGE_SIZE then
      let t := fetchLoop env 0 3
      { t with deletedExisting := true }
    else if ¬ is_valid_image_content (content.take 12) then
      let t := fetchLoop env 0 3
      { t with deletedExisting := true }
    else
      ⟨true, 0, [], false, none⟩
  | none => fetchLoop env 0 3

/-- Condition under which `download_image` rejects a fetched response
without retrying: a declared non-image Content-Type, a body under the
minimum size, or header bytes that match no known image signature. -/
def respValidationFails (ct : Option String) (body : List Nat) : Bool :=
  let ctype := pyLower (ct.getD (""))
  (ctype ≠ "" ∧ ¬ pyStartsWith ctype ("image/")) ∨ body.length < MIN_IMAGE_SIZE ∨
    ¬ is_valid_image_content (body.take 12)

/-! ## main.py per-unit stage wrappers -/

/-- Whether `pat` occurs as a contiguous run at some suffix start of `s`. -/
def infixCheck (pat : List Char) : List Char → Bool
  | [] => pat.isEmpty
  | c :: rest => pat.isPrefixOf (c :: rest) || infixCheck pat rest

/-- Python substring test `pat in s`. -/
def containsSub (s pat : String) : Bool := infixCheck pat.toList s.toList

/-- Classification of a transient storage-contention error:
`"DeadlockDetected" in error_msg or "deadlock" in error_msg.lower()`. -/
def isDeadlockMsg (em : String) : Bool :=
  containsSub em ("DeadlockDetected") || containsSub (pyLower em) "deadlock"

/-- Classification of the expected-absence messages in
`_parse_panoramas_for_spec` (`is_no_panorama`). -/
def isNoPanoramaMsg (em : String) : Bool :=
  containsSub em ("Не удалось найти ext_id") ||
    containsSub (pyLower em) "не найдено цветов" ||
    containsSub (pyLower em) "не найдено цветов для 360 фото"

/-- Observable trace of one per-unit wrapper call: whether an exception
propagated out of the wrapper, how many handler attempts were made, the
backoff sleeps in milliseconds, and how many times the shared error
counter was incremented. -/
structure UnitRunResult where
  raised : Bool
  attempts : Nat
  sleeps : List Nat
  errors : Nat
deriving DecidableEq

/-- Retry loop of `_parse_and_store_series` (characteristics stage).  The
handler models the try-block body: `none` is success, `some msg` an
exception with message `msg`.  `remaining = max_retries - attempt`, so the
python guard `attempt < max_retries - 1` is `0 < remaining - 1`, i.e.
`0 < remaining` after pattern-matching off one iteration.  A deadlock
error on a non-final attempt sleeps `0.1s × (attempt+1)` (here in ms) and
retries; any other error increments the error counter and re-raises. -/
def charStageGo (handler : Nat → Option String) (attempt : Nat) :
    Nat → UnitRunResult
  | 0 => ⟨false, 0, [], 0⟩
  | remaining + 1 =>
    match handler attempt with
    | none => ⟨false, 1, [], 0⟩
    | some exc =>
      let em := firstLine exc
      if 0 < remaining ∧ isDeadlockMsg em = true then
        let t := charStageGo handler (attempt + 1) remaining
        ⟨t.raised, t.attempts + 1, 100 * (attempt + 1) :: t.sleeps, t.errors⟩
      else
        ⟨true, 1, [], 1⟩

/-- Model of `_parse_and_store_series` with `max_retries = 3`. -/
def parse_and_store_series (handler : Nat → Option String) : UnitRunResult :=
  charStageGo handler 0 3

/-- Retry loop shared (verbatim in the source) by `_parse_photos_for_series`,
`_download_photos_for_series` and `_download_panoramas_for_spec`: deadlock
errors on non-final attempts sleep and retry without counting; any other
error is counted and logged, after which the wrapper returns on the final
attempt (`if attempt == max_retries - 1: return`) — but on a non-final
attempt the loop falls through and runs the handler again (with no
sleep). -/
def swallowStageGo (handler : Nat → Option String) (attempt : Nat) :
    Nat → UnitRunResult
  | 0 => ⟨false, 0, [], 0⟩
  | remaining + 1 =>
    match handler attempt with
    | none => ⟨false, 1, [], 0⟩
    | some exc =>
      let em := firstLine exc
      if 0 < remaining ∧ isDeadlockMsg em = true then
        let t := swallowStageGo handler (attempt + 1) remaining
        ⟨t.raised, t.attempts + 1, 100 * (attempt + 1) :: t.sleeps, t.errors⟩
      else if remaining = 0 then
        ⟨false, 1, [], 1⟩
      else
        let t := swallowStageGo handler (attempt + 1) remaining
        ⟨t.raised, t.attempts + 1, t.sleeps, t.errors + 1⟩

/-- Model of `_parse_photos_for_series` with `max_retries = 3`. -/
def parse_photos_for_series (handler : Nat → Option String) : UnitRunResult :=
  swallowStageGo handler 0 3

/-- Model of `_download_photos_for_series` with `max_retries = 3`. -/
def download_photos_for_series (handler : Nat → Option String) : UnitRunResult :=
  swallowStageGo handler 0 3

/-- Model of `_download_panoramas_for_spec` with `max_retries = 3`. -/
def download_panoramas_for_spec (handler : Nat → Option String) : UnitRunResult :=
  swallowStageGo handler 0 3

/-- Retry loop of `_parse_panoramas_for_spec`: like the other swallowing
wrappers, but an expected-absence message returns normally without
counting an error. -/
def panoParseGo (handler : Nat → Option String) (attempt : Nat) :
    Nat → UnitRunResult
  | 0 => ⟨false, 0, [], 0⟩
  | remaining + 1 =>
    match handler attempt with
    | none => ⟨false, 1, [], 0⟩
    | some exc =>
      let em := firstLine exc
      if isNoPanoramaMsg em = true then
        ⟨false, 1, [], 0⟩
      else if 0 < remaining ∧ isDeadlockMsg em = true then
        let t := panoParseGo handler (attempt + 1) remaining
        ⟨t.raised, t.attempts + 1, 100 * (attempt + 1) :: t.sleeps, t.errors⟩
      else if remaining = 0 then
        ⟨false, 1, [], 1⟩
      else
        let t := panoParseGo handler (attempt + 1) remaining
        ⟨t.raised, t.attempts + 1, t.sleeps, t.errors + 1⟩

/-- Model of `_parse_panoramas_for_spec` with `max_retries = 3`. -/
def parse_panoramas_for_spec (handler : Nat → Option String) : UnitRunResult :=
  panoParseGo handler 0 3

/-! ## panorama_parser.py — find_ext_id_for_spec

Ids are modelled as `Nat` (they are parsed from digit groups or stored in
integer columns).  A call to the authoritative endpoint
`get_pano_baseinfo(ext_id)` either raises (`none`) or yields a payload
from which the code reads `ext.get("SpecId")` and `ext.get("Id")`
(the `ext` object defaults to an empty dict, so both reads are optional). -/

/-- What `find_ext_id_for_spec` reads from a `get_pano_baseinfo` response. -/
structure ExtPayload where
  specId : Option Nat
  extId : Option Nat
deriving DecidableEq

/-- The two network calls the resolver performs.  `baseinfo e = none` and
`page s = none` model a raised exception (HTTP error, malformed payload,
timeout). -/
structure PanoClient where
  baseinfo : Nat → Option ExtPayload
  page : Nat → Option String

/-- The candidate-probing loop of the page-scrape step: for each candidate
in order, call the authoritative endpoint; a raised exception is caught
and treated as a non-match; the first candidate whose payload echoes
`ext.SpecId == spec_id` is returned. -/
def probeCandidates (client : PanoClient) (spec_id : Nat) :
    List Nat → Option Nat
  | [] => none
  | c :: rest =>
    match client.baseinfo c with
    | none => probeCandidates client spec_id rest
    | some p =>
      if p.specId = some spec_id then some c
      else probeCandidates client spec_id rest

/-- Candidate assembly of the page-scrape step.  The `re.findall` results
of the explicit patterns (the 11 `patterns` plus `url_pattern`) and of the
`aggressive_patterns` are abstracted as lists of matched digit groups,
each group already read as the natural number it denotes (`int(match)`
cannot fail on a digit group).  Explicit candidates exclude the spec id;
the aggressive fallback runs only when no explicit candidate was found
and additionally requires `1000 <= candidate <= 999999`. -/
def explicitCandidates (spec_id : Nat)
    (explicitMatches : List (List Nat)) : Finset Nat :=
  explicitMatches.foldl
    (fun acc ms => ms.foldl
      (fun a c => if c ≠ spec_id then insert c a else a) acc) ∅

/-- The aggressive fallback pattern set: candidates are kept only when
`1000 <= candidate <= 999999` and distinct from the spec id. -/
def aggressiveCandidates (spec_id : Nat)
    (aggressiveMatches : List (List Nat)) : Finset Nat :=
  aggressiveMatches.foldl
    (fun acc ms => ms.foldl
      (fun a c =>
        if 1000 ≤ c ∧ c ≤ 999999 ∧ c ≠ spec_id then insert c a else a) acc) ∅

/-- Model of `found_candidates` after both phases: the aggressive fallback runs
only when the explicit patterns produced no candidate. -/
def collectCandidates (spec_id : Nat)
    (explicitMatches aggressiveMatches : List (List Nat)) : Finset Nat :=
  if explicitCandidates spec_id explicitMatches = ∅ then
    aggressiveCandidates spec_id aggressiveMatches
  else explicitCandidates spec_id explicitMatches

/-- Model of `sorted(found_candidates)`: the candidates in ascending order. -/
def sortedCandidates (spec_id : Nat)
    (explicitMatches aggressiveMatches : List (List Nat)) : List Nat :=
  (collectCandidates spec_id explicitMatches aggressiveMatches).sort (· ≤ ·)

/-- Step 0 of `find_ext_id_for_spec`: `cached` is the `ext_id` of the first
`PanoramaColor` row of this spec with a non-null `ext_id` (or `none` when
there is no such row or the DB read raised).  A cache hit is used only if
re-validation against the authoritative endpoint still echoes the spec
id; otherwise the step falls through. -/
def cacheStep (client : PanoClient) (cached : Option Nat) (spec_id : Nat) :
    Option Nat :=
  match cached with
  | none => none
  | some saved =>
    match client.baseinfo saved with
    | none => none
    | some ext => if ext.specId = some spec_id then some saved else none

/-- Step 1 of `find_ext_id_for_spec`: fetch the panorama viewer HTML page
and probe the extracted candidates.  `extract spec_id html` abstracts the
regex cascade producing `sorted(found_candidates)` (any failure inside
the `try` block yields `page = none` and falls through). -/
def htmlStep (extract : Nat → String → List Nat) (client : PanoClient)
    (spec_id : Nat) : Option Nat :=
  match client.page spec_id with
  | none => none
  | some html => probeCandidates client spec_id (extract spec_id html)

/-- Step 2 of `find_ext_id_for_spec`: try `spec_id` itself as the ext id;
if its payload echoes a different spec id but carries a truthy `ext.Id`
different from `spec_id`, probe that alternate id once. -/
def directStep (client : PanoClient) (spec_id : Nat) : Option Nat :=
  match client.baseinfo spec_id with
  | none => none
  | some ext =>
    if ext.specId = some spec_id then some spec_id
    else
      match ext.extId with
      | none => none
      | some alt =>
        if alt ≠ 0 then
          if alt = spec_id then none
          else
            match client.baseinfo alt with
            | none => none
            | some ext2 =>
              if ext2.specId = some spec_id then some alt else none
        else none

/-- Model of `find_ext_id_for_spec(client, spec_id, session_factory)`: cache check,
then HTML page scrape, then the direct probe; the first confirmed id
wins, `none` means "no panorama". -/
def find_ext_id_for_spec (extract : Nat → String → List Nat)
    (client : PanoClient) (cached : Option Nat) (spec_id : Nat) : Option Nat :=
  match cacheStep client cached spec_id with
  | some r => some r
  | none =>
    match htmlStep extract client spec_id with
    | some r => some r
    | none => directStep client spec_id

/-! ## repository.py — the upsert/reconciliation layer

The relational store is a `List` of row structures in insertion order; a
`session.query(...).filter(key).first()` is a `find?` on it, `session.add`
an append, an ORM field assignment an in-place functional update of the
first matching row.  Ids are `Int` (python ints / SQL `Integer`); counters
that python increments in place are recorded per loop iteration and
summed by the recursion. -/

/-- The `{"inserted": _, "updated": _, "skipped": _}` result dict. -/
structure UpsertCounts where
  inserted : Nat
  updated : Nat
  skipped : Nat
deriving DecidableEq

section KeyedUpsert

variable {ρ δ κ : Type} [DecidableEq κ]

/-- Model of `session.query(T).filter(key-columns == k).first()`. -/
def findRow (rkey : ρ → κ) (s : List ρ) (k : κ) : Option ρ :=
  s.find? (fun r => decide (rkey r = k))

/-- Assigning the incoming record's non-key fields to the first stored row
whose key matches the record's key (the ORM mutation of `existing`). -/
def updateFirst (rkey : ρ → κ) (dkey : δ → κ) (upd : δ → ρ → ρ) :
    List ρ → δ → List ρ
  | [], _ => []
  | r :: rest, d =>
    if rkey r = dkey d then upd d r :: rest
    else r :: updateFirst rkey dkey upd rest d

/-- The row-at-a-time upsert loop shared by `upsert_brands`,
`upsert_series`, `upsert_specs`, `upsert_photo_colors`,
`upsert_photo_categories`, `upsert_panorama_colors` and
`upsert_panorama_photos`: keys already seen in this batch are counted as
skipped before any storage access; otherwise the first stored row with
the key is updated, or a fresh row is appended. -/
def upsertLoop (rkey : ρ → κ) (dkey : δ → κ) (mk : δ → ρ) (upd : δ → ρ → ρ)
    (s : List ρ) (seen : List κ) : List δ → List ρ × UpsertCounts
  | [] => (s, ⟨0, 0, 0⟩)
  | d :: rest =>
    if dkey d ∈ seen then
      let r := upsertLoop rkey dkey mk upd s seen rest
      (r.1, ⟨r.2.inserted, r.2.updated, r.2.skipped + 1⟩)
    else
      match findRow rkey s (dkey d) with
      | some _ =>
        let r := upsertLoop rkey dkey mk upd
          (updateFirst rkey dkey upd s d) (dkey d :: seen) rest
        (r.1, ⟨r.2.inserted, r.2.updated + 1, r.2.skipped⟩)
      | none =>
        let r := upsertLoop rkey dkey mk upd (s ++ [mk d]) (dkey d :: seen) rest
        (r.1, ⟨r.2.inserted + 1, r.2.updated, r.2.skipped⟩)

/-- In-batch deduplication, first occurrence wins (the `seen_ids` set /
`unique_items` dict): returns the kept records in order and the number of
dropped (skipped) later duplicates. -/
def dedupFirst (dkey : δ → κ) (seen : List κ) : List δ → List δ × Nat
  | [] => ([], 0)
  | d :: rest =>
    if dkey d ∈ seen then
      let r := dedupFirst dkey seen rest
      (r.1, r.2 + 1)
    else
      let r := dedupFirst dkey (dkey d :: seen) rest
      (d :: r.1, r.2)

/-- PostgreSQL `INSERT ... ON CONFLICT (key) DO UPDATE SET non-key-fields`
over a batch of value rows: per row, the conflicting stored row is
updated, otherwise the row is inserted. -/
def onConflictApply (rkey : ρ → κ) (dkey : δ → κ) (mk : δ → ρ)
    (upd : δ → ρ → ρ) (s : List ρ) : List δ → List ρ
  | [] => s
  | d :: rest =>
    let s1 :=
      match findRow rkey s (dkey d) with
      | some _ => updateFirst rkey dkey upd s d
      | none => s ++ [mk d]
    onConflictApply rkey dkey mk upd s1 rest

end KeyedUpsert

/-- Model of `brands` table row (audit timestamps omitted). -/
structure Brand where
  id : Int
  name : String
  logo_url : Option String
deriving DecidableEq

/-- Model of `BrandData` typed record from the tree parser. -/
structure BrandData where
  id : Int
  name : String
  logo_url : Option String
deriving DecidableEq

/-- Row constructed by `upsert_brands` for a missing id. -/
def brandMk (d : BrandData) : Brand := ⟨d.id, d.name, d.logo_url⟩

/-- Field assignments of `upsert_brands` on an existing row. -/
def brandUpd (d : BrandData) (r : Brand) : Brand :=
  { r with name := d.name, logo_url := d.logo_url }

/-- Model of `upsert_brands(session, items)`. -/
def upsert_brands (store : List Brand) (items : List BrandData) :
    List Brand × UpsertCounts :=
  upsertLoop Brand.id BrandData.id brandMk brandUpd store [] items

/-- Model of `photo_categories` table row (composite key `(series_id, id)`). -/
structure PhotoCategory where
  id : Int
  series_id : Int
  name : String
deriving DecidableEq

/-- Model of `PhotoCategoryData` typed record. -/
structure PhotoCategoryData where
  id : Int
  series_id : Int
  name : String
deriving DecidableEq

/-- Composite key of a stored photo category. -/
def photoCategoryKey (r : PhotoCategory) : Int × Int := (r.series_id, r.id)

/-- Composite key of an incoming photo-category record. -/
def photoCategoryDataKey (d : PhotoCategoryData) : Int × Int :=
  (d.series_id, d.id)

/-- Row constructed by `upsert_photo_categories` for a missing key. -/
def photoCategoryMk (d : PhotoCategoryData) : PhotoCategory :=
  ⟨d.id, d.series_id, d.name⟩

/-- Field assignment of `upsert_photo_categories` on an existing row. -/
def photoCategoryUpd (d : PhotoCategoryData) (r : PhotoCategory) :
    PhotoCategory :=
  { r with name := d.name }

/-- Model of `upsert_photo_categories(session, items)`. -/
def upsert_photo_categories (store : List PhotoCategory)
    (items : List PhotoCategoryData) : List PhotoCategory × UpsertCounts :=
  upsertLoop photoCategoryKey photoCategoryDataKey photoCategoryMk
    photoCategoryUpd store [] items

/-- Model of `photos` table row (string primary key; `local_path` is set by the
download stage and is not touched by the metadata upsert). -/
structure Photo where
  id : String
  series_id : Int
  specification_id : Int
  category_id : Int
  color_id : Int
  originalpic : Option String
  specname : Option String
  local_path : Option String
deriving DecidableEq

/-- Model of `PhotoData` typed record from the photo-listing parser. -/
structure PhotoData where
  id : String
  series_id : Int
  specification_id : Int
  category_id : Int
  color_id : Int
  originalpic : Option String
  specname : Option String
deriving DecidableEq

/-- Value row inserted by `upsert_photos` (fresh rows have no local path). -/
def photoMk (d : PhotoData) : Photo :=
  ⟨d.id, d.series_id, d.specification_id, d.category_id, d.color_id,
    d.originalpic, d.specname, none⟩

/-- The `ON CONFLICT DO UPDATE SET` column list of `upsert_photos`
(`local_path` is not in it). -/
def photoUpd (d : PhotoData) (r : Photo) : Photo :=
  { r with
    series_id := d.series_id
    specification_id := d.specification_id
    category_id := d.category_id
    color_id := d.color_id
    originalpic := d.originalpic
    specname := d.specname }

/-- Model of `upsert_photos(session, items)`: in-batch dedup by id, then a bulk
`ON CONFLICT (id) DO UPDATE`; the storage layer reports no per-row
insert/update split, so every deduplicated record is counted as
inserted (`updated = 0`) — the code comments this explicitly. -/
def upsert_photos (store : List Photo) (items : List PhotoData) :
    List Photo × UpsertCounts :=
  if items.isEmpty then (store, ⟨0, 0, 0⟩)
  else
    let dd := dedupFirst PhotoData.id [] items
    if dd.1.isEmpty then (store, ⟨0, 0, dd.2⟩)
    else
      (onConflictApply Photo.id PhotoData.id photoMk photoUpd store dd.1,
        ⟨dd.1.length, 0, dd.2⟩)

/-- Model of `param_titles` table row (composite key `(series_id, title_id)`). -/
structure ParamTitle where
  series_id : Int
  title_id : Int
  item_name : String
  group_name : Option String
  item_type : Option String
deriving DecidableEq

/-- Model of `ParamTitleData` typed record. -/
structure ParamTitleData where
  series_id : Int
  title_id : Int
  item_name : String
  group_name : Option String
  item_type : Option String
deriving DecidableEq

/-- Model of `(item.item_name[:512] if item.item_name else "")[:512]` — the
truthiness test is emptiness of the string. -/
def paramTitleName (s : String) : String :=
  pyTrunc 512 (if s ≠ "" then pyTrunc 512 s else (""))

/-- Composite key of a stored param title. -/
def paramTitleKey (r : ParamTitle) : Int × Int := (r.series_id, r.title_id)

/-- Composite key of an incoming param-title record. -/
def paramTitleDataKey (d : ParamTitleData) : Int × Int :=
  (d.series_id, d.title_id)

/-- Value row inserted by `upsert_param_titles`. -/
def paramTitleMk (d : ParamTitleData) : ParamTitle :=
  ⟨d.series_id, d.title_id, paramTitleName d.item_name, d.group_name,
    d.item_type⟩

/-- The `ON CONFLICT DO UPDATE SET` column list of `upsert_param_titles`. -/
def paramTitleUpd (d : ParamTitleData) (r : ParamTitle) : ParamTitle :=
  { r with
    item_name := paramTitleName d.item_name
    group_name := d.group_name
    item_type := d.item_type }

/-- Model of `upsert_param_titles(session, items)`: in-batch dedup on the composite
key (`unique_items` dict, first occurrence wins), then a bulk
`ON CONFLICT (series_id, title_id) DO UPDATE`; every deduplicated record
is counted as inserted (`updated = 0`). -/
def upsert_param_titles (store : List ParamTitle)
    (items : List ParamTitleData) : List ParamTitle × UpsertCounts :=
  let dd := dedupFirst paramTitleDataKey [] items
  if dd.1.isEmpty then (store, ⟨0, 0, 0⟩)
  else
    (onConflictApply paramTitleKey paramTitleDataKey paramTitleMk
      paramTitleUpd store dd.1, ⟨dd.1.length, 0, dd.2⟩)

/-- Model of `param_values` table row (composite key
`(specification_id, title_id, item_name, sub_name)`; `sub_name` is
nullable in the schema, hence `Option`). -/
structure ParamValue where
  specification_id : Int
  title_id : Int
  item_name : String
  sub_name : Option String
  value : Option String
deriving DecidableEq

/-- Model of `ParamValueData` typed record from the characteristics parser. -/
structure ParamValueData where
  specification_id : Int
  title_id : Int
  item_name : String
  sub_name : Option String
  value : Option String
deriving DecidableEq

/-- Model of `v.sub_name or ""` on a stored row. -/
def pvRowSub (r : ParamValue) : String := r.sub_name.getD ("")

/-- Phase 1 of `upsert_param_values`: truncate the strings
(`(item.sub_name or "")[:512]`, `(item.item_name or "")[:512]` — for a
`str` field `x or ""` is `x` itself when empty) and drop in-batch
duplicates of the full key `(spec, title, item_name, sub_name)`, first
occurrence wins.  Returns `(item, item_name, sub_name)` triples and the
skipped count. -/
def pvDedup (seen : List (Int × Int × String × String)) :
    List ParamValueData → List (ParamValueData × String × String) × Nat
  | [] => ([], 0)
  | d :: rest =>
    let sub := pyTrunc 512 (d.sub_name.getD (""))
    let nm := pyTrunc 512 d.item_name
    let key := (d.specification_id, d.title_id, nm, sub)
    if key ∈ seen then
      let r := pvDedup seen rest
      (r.1, r.2 + 1)
    else
      let r := pvDedup (key :: seen) rest
      ((d, nm, sub) :: r.1, r.2)

/-- The rows of the pre-loaded `existing` snapshot grouped under a stable
key `(specification_id, title_id, sub_name or "")` — the
`existing_values_by_title` index, in query (store) order. -/
def pvCandidates (existing : List ParamValue) (tkey : Int × Int × String) :
    List ParamValue :=
  existing.filter
    (fun v => decide ((v.specification_id, v.title_id, pvRowSub v) = tkey))

/-- The `for candidate in candidates` scan assigning `existing_correct`:
the last candidate whose `item_name` equals the incoming one. -/
def pvFindCorrect (candidates : List ParamValue) (nm : String) :
    Option ParamValue :=
  candidates.foldl (fun acc c => if c.item_name = nm then some c else acc) none

/-- Model of `session.delete(old_record)`: remove the first stored occurrence of the
row object. -/
def removeFirst : List ParamValue → ParamValue → List ParamValue
  | [], _ => []
  | x :: rest, r => if x = r then rest else x :: removeFirst rest r

/-- Model of `existing_correct.value = item.value`: in-place update of the first
stored occurrence of the row object. -/
def replaceValue : List ParamValue → ParamValue → Option String → List ParamValue
  | [], _, _ => []
  | x :: rest, r, v =>
    if x = r then { x with value := v } :: rest else x :: replaceValue rest r v

/-- Phase 3 of `upsert_param_values`: per deduplicated item, look up the
candidates with the same stable key in the pre-loaded snapshot; delete
every candidate with a different `item_name`; then either update the
value of the candidate with the matching name, or insert a fresh row
(with the string `sub_name`).  Returns the store and the
`(inserted, updated)` counts. -/
def pvGo (existing : List ParamValue) (store : List ParamValue) :
    List (ParamValueData × String × String) → List ParamValue × Nat × Nat
  | [] => (store, 0, 0)
  | (d, nm, sub) :: rest =>
    let candidates := pvCandidates existing (d.specification_id, d.title_id, sub)
    let correct := pvFindCorrect candidates nm
    let old := candidates.filter (fun c => decide (c.item_name ≠ nm))
    let store1 := old.foldl removeFirst store
    match correct with
    | some r =>
      let t := pvGo existing (replaceValue store1 r d.value) rest
      (t.1, t.2.1, t.2.2 + 1)
    | none =>
      let t := pvGo existing
        (store1 ++ [⟨d.specification_id, d.title_id, nm, some sub, d.value⟩])
        rest
      (t.1, t.2.1 + 1, t.2.2)

/-- Model of `upsert_param_values(session, items)`: dedup and truncate, pre-load
the existing rows whose `specification_id` and `title_id` occur in the
batch (one query, a snapshot taken before the loop), then reconcile item
by item.  (`list(set(...))` is modelled by `dedup`; only membership in
these id lists matters.) -/
def upsert_param_values (store : List ParamValue)
    (items : List ParamValueData) : List ParamValue × UpsertCounts :=
  let dd := pvDedup [] items
  if dd.1.isEmpty then (store, ⟨0, 0, dd.2⟩)
  else
    let specIds := (dd.1.map (fun p => p.1.specification_id)).dedup
    let titleIds := (dd.1.map (fun p => p.1.title_id)).dedup
    let existing := store.filter
      (fun v => specIds.contains v.specification_id &&
        titleIds.contains v.title_id)
    let t := pvGo existing store dd.1
    (t.1, ⟨t.2.1, t.2.2, dd.2⟩)

/-! ## Verification-side definitions -/

/-- A probe outcome that the page-scrape loop treats as a non-match: the
authoritative call raised, or its payload does not echo the spec id. -/
def probeNonMatch (client : PanoClient) (s c : Nat) : Prop :=
  client.baseinfo c = none ∨
    ∃ p, client.baseinfo c = some p ∧ p.specId ≠ some s

/-- A batch relative to a seen-set in which every record's key is fresh at
its turn — the shape of the first-occurrence batches kept by
`dedupFirst`. -/
inductive FirstWins {δ κ : Type} (dk : δ → κ) : List κ → List δ → Prop
  | nil (seen : List κ) : FirstWins dk seen []
  | cons (seen : List κ) (d : δ) (rest : List δ) :
      dk d ∉ seen → FirstWins dk (dk d :: seen) rest →
      FirstWins dk seen (d :: rest)

/-! ## Theorems -/

/-- C10: `_is_valid_image_content` returns `False` on fewer than 4 bytes,
and otherwise accepts exactly the JPEG, PNG and GIF signatures, and RIFF
either shorter than 12 bytes or with the WEBP sub-type tag at bytes
8..12 — in particular a RIFF prefix of total length 4 to 11 is accepted
without the WEBP check. -/
theorem claim_C10_image_signature (data : List Nat) :
    is_valid_image_content data = true ↔
      (4 ≤ data.length ∧ (jpegSig.isPrefixOf data ∨ pngSig.isPrefixOf data ∨
        gifSig.isPrefixOf data ∨ (riffSig.isPrefixOf data ∧
          (data.length < 12 ∨ (data.drop 8).take 4 = webpTag)))) := by
  unfold is_valid_image_content IMAGE_SIGNATURES
  by_cases h4 : data.length < 4
  · simp [h4]
  · simp only [h4, if_false]
    simp only [sigLoop]
    have hj : ¬ (jpegSig = riffSig) := by decide
    have hp : ¬ (pngSig = riffSig) := by decide
    have hg : ¬ (gifSig = riffSig) := by decide
    by_cases pj : jpegSig.isPrefixOf data <;>
      by_cases pp : pngSig.isPrefixOf data <;>
      by_cases pg : gifSig.isPrefixOf data <;>
      by_cases pr : riffSig.isPrefixOf data <;>
      by_cases h12 : 12 ≤ data.length <;>
      by_cases hw : (data.drop 8).take 4 = webpTag <;>
      simp_all

/-- C10 witness: a RIFF-prefixed input of length 5 is accepted without the
WEBP sub-type check. -/
theorem claim_C10_image_signature_witness :
    is_valid_image_content [0x52, 0x49, 0x46, 0x46, 0] = true :=
  (claim_C10_image_signature [0x52, 0x49, 0x46, 0x46, 0]).mpr
    (by refine ⟨by decide, Or.inr (Or.inr (Or.inr ⟨by decide, Or.inl (by decide)⟩))⟩)

/-- C5: a pre-existing destination file that passes both the minimum-size
check and the signature check makes `download_image` return success with
no network request; a file failing either check is deleted and the call
behaves exactly like a call with no pre-existing file. -/
theorem claim_C5_prefetch_validation (content : List Nat)
    (env : Nat → FetchOutcome) :
    (MIN_IMAGE_SIZE ≤ content.length →
      is_valid_image_content (content.take 12) = true →
      download_image (some content) env = ⟨true, 0, [], false, none⟩) ∧
    (content.length < MIN_IMAGE_SIZE ∨
        is_valid_image_content (content.take 12) = false →
      download_image (some content) env =
        { download_image none env with deletedExisting := true }) := by
  constructor
  · intro hsz hsig
    simp [download_image, Nat.not_lt_of_le hsz, hsig]
  · intro h
    rcases h with h | h
    · simp [download_image, h]
    · by_cases hsz : content.length < MIN_IMAGE_SIZE
      · simp [download_image, hsz]
      · simp [download_image, hsz, h]

/-- C5 witness: a valid 1024-byte JPEG file short-circuits; a 1-byte file
is deleted and re-fetched. -/
theorem claim_C5_prefetch_validation_witness :
    download_image (some (jpegSig ++ List.replicate 1021 0))
        (fun _ => FetchOutcome.netError) = ⟨true, 0, [], false, none⟩ ∧
    download_image (some [0]) (fun _ => FetchOutcome.netError) =
      { download_image none (fun _ => FetchOutcome.netError) with
          deletedExisting := true } := by
  constructor
  · exact (claim_C5_prefetch_validation (jpegSig ++ List.replicate 1021 0)
      (fun _ => FetchOutcome.netError)).1
      (by rw [List.length_append, List.length_replicate]; decide)
      (by decide)
  · exact (claim_C5_prefetch_validation [0]
      (fun _ => FetchOutcome.netError)).2 (Or.inl (by decide))

/-- C6: inside one `download_image` call, a fetched response that fails
validation (non-image Content-Type, body under 1024 bytes, or unknown
signature) returns `False` at once with no further attempt; only
network-level failures are retried, at most 3 attempts in all, sleeping
`0.5s × attempt_number` between consecutive attempts, and all attempts
failing yields `False`. -/
theorem claim_C6_fetch_retry_policy (env : Nat → FetchOutcome)
    (ct : Option String) (body : List Nat) (wOk : Bool)
    (hfail : respValidationFails ct body = true) :
    (env 0 = .resp ct body wOk →
      download_image none env = ⟨false, 1, [], false, none⟩) ∧
    (env 0 = .netError → env 1 = .resp ct body wOk →
      download_image none env = ⟨false, 2, [500], false, none⟩) ∧
    (env 0 = .netError → env 1 = .netError → env 2 = .resp ct body wOk →
      download_image none env = ⟨false, 3, [500, 1000], false, none⟩) ∧
    (env 0 = .netError → env 1 = .netError → env 2 = .netError →
      download_image none env = ⟨false, 3, [500, 1000], false, none⟩) := by
  simp only [respValidationFails, decide_eq_true_eq, Bool.or_eq_true,
    decide_eq_true_iff] at hfail
  refine ⟨?_, ?_, ?_, ?_⟩
  · intro h0
    simp only [download_image, fetchLoop, h0]
    rcases hfail with h | h | h <;> simp [h]
  · intro h0 h1
    simp only [download_image, fetchLoop, h0, h1]
    rcases hfail with h | h | h <;> simp [h]
  · intro h0 h1 h2
    simp only [download_image, fetchLoop, h0, h1, h2]
    rcases hfail with h | h | h <;> simp [h]
  · intro h0 h1 h2
    simp [download_image, fetchLoop, h0, h1, h2]

/-- C6 witness: an HTML response on the first attempt fails at once with
one request and no sleep; three network failures exhaust the retries
with sleeps of 0.5s and 1.0s. -/
theorem claim_C6_fetch_retry_policy_witness :
    download_image none
        (fun _ => FetchOutcome.resp (some ("text/html")) [] true) =
      ⟨false, 1, [], false, none⟩ ∧
    download_image none (fun _ => FetchOutcome.netError) =
      ⟨false, 3, [500, 1000], false, none⟩ := by
  constructor
  · exact (claim_C6_fetch_retry_policy
      (fun _ => FetchOutcome.resp (some ("text/html")) [] true)
      (some ("text/html")) [] true (by decide)).1 rfl
  · exact (claim_C6_fetch_retry_policy (fun _ => FetchOutcome.netError)
      (some ("text/html")) [] true (by decide)).2.2.2 rfl rfl rfl

theorem charStageGo_allFail (handler : Nat → Option String)
    (h : ∀ n, handler n ≠ none) :
    ∀ r a, 0 < r → (charStageGo handler a r).raised = true ∧
      (charStageGo handler a r).errors = 1 := by
  intro r
  induction r with
  | zero => intro a h0; omega
  | succ n ih =>
    intro a _
    cases hh : handler a with
    | none => exact absurd hh (h a)
    | some m =>
      by_cases hc : 0 < n ∧ isDeadlockMsg (firstLine m) = true
      · have := ih (a + 1) hc.1
        simp [charStageGo, hh, hc, this.1, this.2]
      · simp [charStageGo, hh, hc]

theorem swallowStageGo_no_raise (handler : Nat → Option String) :
    ∀ r a, (swallowStageGo handler a r).raised = false := by
  intro r
  induction r with
  | zero => intro a; simp [swallowStageGo]
  | succ n ih =>
    intro a
    cases hh : handler a with
    | none => simp [swallowStageGo, hh]
    | some m =>
      by_cases hc : 0 < n ∧ isDeadlockMsg (firstLine m) = true
      · simp [swallowStageGo, hh, hc, ih]
      · by_cases hn : n = 0
        · simp [swallowStageGo, hh, hc, hn]
        · simp [swallowStageGo, hh, hc, hn, ih]

theorem panoParseGo_no_raise (handler : Nat → Option String) :
    ∀ r a, (panoParseGo handler a r).raised = false := by
  intro r
  induction r with
  | zero => intro a; simp [panoParseGo]
  | succ n ih =>
    intro a
    cases hh : handler a with
    | none => simp [panoParseGo, hh]
    | some m =>
      by_cases hp : isNoPanoramaMsg (firstLine m) = true
      · simp [panoParseGo, hh, hp]
      · by_cases hc : 0 < n ∧ isDeadlockMsg (firstLine m) = true
        · simp [panoParseGo, hh, hp, hc, ih]
        · by_cases hn : n = 0
          · simp [panoParseGo, hh, hp, hc, hn]
          · simp [panoParseGo, hh, hp, hc, hn, ih]

/-- C4 counterexample: in `_parse_photos_for_series`, a handler that
always raises a non-contention error is attempted 3 times, not 1 — a
non-contention error on a non-final attempt falls through the `except`
block and the loop runs the handler again, so it is not terminal
immediately as the claim states. -/
theorem claim_C4_retry_policy_counterexample :
    (parse_photos_for_series (fun _ => some ("ValueError: boom"))).attempts = 3 ∧
    (parse_photos_for_series (fun _ => some ("ValueError: boom"))).attempts ≠ 1 := by
  constructor
  · decide
  · decide

/-- C4 (amended): a handler always raising a contention (deadlock) error
is attempted exactly 3 times with backoff sleeps of 0.1s and 0.2s in both
wrappers; a handler always raising a non-contention error is terminal on
the first attempt in the characteristics wrapper (1 attempt, error
counted once, re-raised), but in the photo-parse wrapper it is retried
without any backoff sleep — 3 attempts in all, with the error counter
incremented on every failed attempt. -/
theorem claim_C4_retry_policy :
    (∀ (handler : Nat → Option String) (m : String),
      (∀ n, handler n = some m) → isDeadlockMsg (firstLine m) = true →
      parse_and_store_series handler = ⟨true, 3, [100, 200], 1⟩ ∧
      parse_photos_for_series handler = ⟨false, 3, [100, 200], 1⟩) ∧
    (∀ (handler : Nat → Option String) (m : String),
      (∀ n, handler n = some m) → isDeadlockMsg (firstLine m) = false →
      parse_and_store_series handler = ⟨true, 1, [], 1⟩ ∧
      parse_photos_for_series handler = ⟨false, 3, [], 3⟩) := by
  constructor
  · intro handler m hall hdl
    constructor
    · simp [parse_and_store_series, charStageGo, hall, hdl]
    · simp [parse_photos_for_series, swallowStageGo, hall, hdl]
  · intro handler m hall hdl
    constructor
    · simp [parse_and_store_series, charStageGo, hall, hdl]
    · simp [parse_photos_for_series, swallowStageGo, hall, hdl]

/-- C4 witness at concrete handlers: an always-deadlocking handler and an
always-failing non-contention handler. -/
theorem claim_C4_retry_policy_witness :
    (parse_and_store_series (fun _ => some ("deadlock detected")) =
      ⟨true, 3, [100, 200], 1⟩ ∧
     parse_photos_for_series (fun _ => some ("deadlock detected")) =
      ⟨false, 3, [100, 200], 1⟩) ∧
    (parse_and_store_series (fun _ => some ("ValueError: boom")) =
      ⟨true, 1, [], 1⟩ ∧
     parse_photos_for_series (fun _ => some ("ValueError: boom")) =
      ⟨false, 3, [], 3⟩) :=
  ⟨claim_C4_retry_policy.1 (fun _ => some ("deadlock detected"))
      "deadlock detected" (fun _ => rfl) (by decide),
   claim_C4_retry_policy.2 (fun _ => some ("ValueError: boom"))
      "ValueError: boom" (fun _ => rfl) (by decide)⟩

/-- C8: a terminal error in the characteristics wrapper is re-raised
after incrementing the shared error counter exactly once, while the
photo-parse, photo-download, panorama-parse and panorama-download
wrappers never let any error propagate — they return normally for every
handler. -/
theorem claim_C8_error_propagation :
    (∀ handler : Nat → Option String, (∀ n, handler n ≠ none) →
      (parse_and_store_series handler).raised = true ∧
      (parse_and_store_series handler).errors = 1) ∧
    (∀ handler : Nat → Option String,
      (parse_photos_for_series handler).raised = false ∧
      (download_photos_for_series handler).raised = false ∧
      (parse_panoramas_for_spec handler).raised = false ∧
      (download_panoramas_for_spec handler).raised = false) := by
  constructor
  · intro handler h
    exact charStageGo_allFail handler h 3 0 (by decide)
  · intro handler
    exact ⟨swallowStageGo_no_raise handler 3 0,
      swallowStageGo_no_raise handler 3 0,
      panoParseGo_no_raise handler 3 0,
      swallowStageGo_no_raise handler 3 0⟩

/-- C8 witness: a handler that always raises a plain error. -/
theorem claim_C8_error_propagation_witness :
    (parse_and_store_series (fun _ => some ("boom"))).raised = true ∧
    (parse_and_store_series (fun _ => some ("boom"))).errors = 1 ∧
    (parse_photos_for_series (fun _ => some ("boom"))).raised = false ∧
    (download_photos_for_series (fun _ => some ("boom"))).raised = false ∧
    (parse_panoramas_for_spec (fun _ => some ("boom"))).raised = false ∧
    (download_panoramas_for_spec (fun _ => some ("boom"))).raised = false := by
  have h1 := claim_C8_error_propagation.1 (fun _ => some ("boom"))
    (fun n => by simp)
  have h2 := claim_C8_error_propagation.2 (fun _ => some ("boom"))
  exact ⟨h1.1, h1.2, h2.1, h2.2.1, h2.2.2.1, h2.2.2.2⟩
theorem probeCandidates_confirms (client : PanoClient) (s : Nat) :
    ∀ cs c, probeCandidates client s cs = some c →
      ∃ p, client.baseinfo c = some p ∧ p.specId = some s := by
  intro cs
  induction cs with
  | nil => intro c h; simp [probeCandidates] at h
  | cons x rest ih =>
    intro c h
    unfold probeCandidates at h
    cases hb : client.baseinfo x with
    | none => simp only [hb] at h; exact ih c h
    | some p =>
      simp only [hb] at h
      by_cases hp : p.specId = some s
      · simp only [hp, if_true] at h
        cases h
        exact ⟨p, hb, hp⟩
      · simp only [hp, if_false] at h
        exact ih c h

theorem cacheStep_confirms (client : PanoClient) (cached : Option Nat)
    (spec_id r : Nat) (h : cacheStep client cached spec_id = some r) :
    ∃ p, client.baseinfo r = some p ∧ p.specId = some spec_id := by
  unfold cacheStep at h
  cases cached with
  | none => simp at h
  | some saved =>
    cases hb : client.baseinfo saved with
    | none => simp only [hb] at h; exact Option.noConfusion h
    | some ext =>
      simp only [hb] at h
      by_cases hp : ext.specId = some spec_id
      · simp only [hp, if_true] at h
        cases h
        exact ⟨ext, hb, hp⟩
      · simp only [hp, if_false] at h
        exact Option.noConfusion h

theorem directStep_confirms (client : PanoClient) (spec_id r : Nat)
    (h : directStep client spec_id = some r) :
    ∃ p, client.baseinfo r = some p ∧ p.specId = some spec_id := by
  unfold directStep at h
  cases hb : client.baseinfo spec_id with
  | none => simp only [hb] at h; exact Option.noConfusion h
  | some ext =>
    simp only [hb] at h
    by_cases hp : ext.specId = some spec_id
    · simp only [hp, if_true] at h
      cases h
      exact ⟨ext, hb, hp⟩
    · simp only [hp, if_false] at h
      cases he : ext.extId with
      | none => simp only [he] at h; exact Option.noConfusion h
      | some alt =>
        simp only [he] at h
        by_cases h0 : alt ≠ 0
        · rw [if_pos h0] at h
          by_cases hs : alt = spec_id
          · rw [if_pos hs] at h
            exact Option.noConfusion h
          · rw [if_neg hs] at h
            cases hb2 : client.baseinfo alt with
            | none => simp only [hb2] at h; exact Option.noConfusion h
            | some ext2 =>
              simp only [hb2] at h
              by_cases hp2 : ext2.specId = some spec_id
              · simp only [hp2, if_true] at h
                cases h
                exact ⟨ext2, hb2, hp2⟩
              · simp only [hp2, if_false] at h
                exact Option.noConfusion h
        · rw [if_neg h0] at h
          exact Option.noConfusion h

/-- C3: whenever `find_ext_id_for_spec` returns a non-None ext id, the
authoritative baseinfo endpoint was called on that id during the call and
its payload echoed `ext.SpecId == spec_id`; this holds on the cache path,
the HTML-candidate path, the identity probe and the alternate-id probe
alike, for every candidate-extraction function. -/
theorem claim_C3_resolver_confirmation (extract : Nat → String → List Nat) (client : PanoClient)
    (cached : Option Nat) (spec_id r : Nat)
    (h : find_ext_id_for_spec extract client cached spec_id = some r) :
    ∃ p, client.baseinfo r = some p ∧ p.specId = some spec_id := by
  unfold find_ext_id_for_spec at h
  cases hc : cacheStep client cached spec_id with
  | some v =>
    simp only [hc] at h
    cases h
    exact cacheStep_confirms client cached spec_id r hc
  | none =>
    simp only [hc] at h
    cases hh : htmlStep extract client spec_id with
    | some v =>
      simp only [hh] at h
      cases h
      unfold htmlStep at hh
      cases hpg : client.page spec_id with
      | none => simp only [hpg] at hh; exact Option.noConfusion hh
      | some html =>
        simp only [hpg] at hh
        exact probeCandidates_confirms client spec_id _ r hh
    | none =>
      simp only [hh] at h
      exact directStep_confirms client spec_id r h
theorem notMem_exp_fold (s : Nat) (ms : List Nat) (a : Finset Nat) (ha : s ∉ a) :
    s ∉ ms.foldl (fun a c => if c ≠ s then insert c a else a) a := by
  induction ms generalizing a with
  | nil => exact ha
  | cons c rest ih =>
    simp only [List.foldl_cons]
    apply ih
    by_cases hc : c ≠ s
    · rw [if_pos hc]
      simp only [Finset.mem_insert]
      rintro (h | h)
      · exact hc h.symm
      · exact ha h
    · rw [if_neg hc]; exact ha

theorem notMem_agg_fold (s : Nat) (ms : List Nat) (a : Finset Nat) (ha : s ∉ a) :
    s ∉ ms.foldl
      (fun a c => if 1000 ≤ c ∧ c ≤ 999999 ∧ c ≠ s then insert c a else a) a := by
  induction ms generalizing a with
  | nil => exact ha
  | cons c rest ih =>
    simp only [List.foldl_cons]
    apply ih
    by_cases hc : 1000 ≤ c ∧ c ≤ 999999 ∧ c ≠ s
    · rw [if_pos hc]
      simp only [Finset.mem_insert]
      rintro (h | h)
      · exact hc.2.2 h.symm
      · exact ha h
    · rw [if_neg hc]; exact ha

theorem notMem_exp_outer (s : Nat) (mss : List (List Nat)) (a : Finset Nat)
    (ha : s ∉ a) :
    s ∉ mss.foldl (fun acc ms => ms.foldl
      (fun a c => if c ≠ s then insert c a else a) acc) a := by
  induction mss generalizing a with
  | nil => exact ha
  | cons ms rest ih =>
    simp only [List.foldl_cons]
    exact ih _ (notMem_exp_fold s ms a ha)

theorem notMem_agg_outer (s : Nat) (mss : List (List Nat)) (a : Finset Nat)
    (ha : s ∉ a) :
    s ∉ mss.foldl (fun acc ms => ms.foldl
      (fun a c => if 1000 ≤ c ∧ c ≤ 999999 ∧ c ≠ s then insert c a else a) acc)
      a := by
  induction mss generalizing a with
  | nil => exact ha
  | cons ms rest ih =>
    simp only [List.foldl_cons]
    exact ih _ (notMem_agg_fold s ms a ha)

theorem specId_notMem_collect (s : Nat) (em am : List (List Nat)) :
    s ∉ collectCandidates s em am := by
  unfold collectCandidates
  by_cases h : explicitCandidates s em = ∅
  · rw [if_pos h]
    unfold aggressiveCandidates
    exact notMem_agg_outer s am ∅ (Finset.not_mem_empty s)
  · rw [if_neg h]
    unfold explicitCandidates
    exact notMem_exp_outer s em ∅ (Finset.not_mem_empty s)

theorem sortedCandidates_sorted (s : Nat) (em am : List (List Nat)) :
    (sortedCandidates s em am).Sorted (· ≤ ·) ∧
      (sortedCandidates s em am).Nodup ∧ s ∉ sortedCandidates s em am := by
  refine ⟨Finset.sort_sorted _ _, Finset.sort_nodup _ _, ?_⟩
  rw [sortedCandidates, Finset.mem_sort]
  exact specId_notMem_collect s em am

theorem probe_first_match (client : PanoClient) (s : Nat) :
    ∀ cs : List Nat, cs.Sorted (· ≤ ·) →
      ∀ c, probeCandidates client s cs = some c →
        ∀ x ∈ cs, x < c → probeNonMatch client s x := by
  intro cs
  induction cs with
  | nil => intro _ c h; simp [probeCandidates] at h
  | cons y rest ih =>
    intro hs c h x hx hxc
    rw [List.sorted_cons] at hs
    unfold probeCandidates at h
    rw [List.mem_cons] at hx
    cases hb : client.baseinfo y with
    | none =>
      simp only [hb] at h
      rcases hx with hx | hx
      · rw [hx]
        exact Or.inl hb
      · exact ih hs.2 c h x hx hxc
    | some p =>
      simp only [hb] at h
      by_cases hp : p.specId = some s
      · simp only [hp, if_true] at h
        have hyc : y = c := Option.some.inj h
        rcases hx with hx | hx
        · rw [hx, hyc] at hxc
          exact absurd hxc (lt_irrefl c)
        · have : c ≤ x := hyc ▸ hs.1 x hx
          exact absurd hxc (not_lt_of_le this)
      · simp only [hp, if_false] at h
        rcases hx with hx | hx
        · rw [hx]
          exact Or.inr ⟨p, hb, hp⟩
        · exact ih hs.2 c h x hx hxc

/-- C3 witness: a client for which only the identity probe at spec id 500
confirms (the scenario of the spec's third end-to-end example). -/
theorem claim_C3_resolver_confirmation_witness :
    ∃ p, (PanoClient.mk
        (fun n => if n = 500 then some ⟨some 500, none⟩ else none)
        (fun _ => none)).baseinfo 500 = some p ∧ p.specId = some 500 :=
  claim_C3_resolver_confirmation (fun _ _ => [])
    (PanoClient.mk (fun n => if n = 500 then some ⟨some 500, none⟩ else none)
      (fun _ => none))
    none 500 500 rfl

/-- C9: the page-scrape candidates are collected into a set (the probed
list is duplicate-free), the spec id itself is excluded, the list is
probed in ascending order; a probe that raises is a non-match that does
not abort the scan, a probe echoing the spec id stops the scan at once, a
probe echoing a different id continues the scan; and along a sorted
candidate list the returned candidate is the least confirmed one — every
smaller candidate either raised or failed the echo. -/
theorem claim_C9_page_scrape :
    (∀ (s : Nat) (em am : List (List Nat)),
      (sortedCandidates s em am).Sorted (· ≤ ·) ∧
      (sortedCandidates s em am).Nodup ∧ s ∉ sortedCandidates s em am) ∧
    (∀ (client : PanoClient) (s c : Nat) (rest : List Nat),
      client.baseinfo c = none →
      probeCandidates client s (c :: rest) = probeCandidates client s rest) ∧
    (∀ (client : PanoClient) (s c : Nat) (rest : List Nat) (p : ExtPayload),
      client.baseinfo c = some p → p.specId = some s →
      probeCandidates client s (c :: rest) = some c) ∧
    (∀ (client : PanoClient) (s c : Nat) (rest : List Nat) (p : ExtPayload),
      client.baseinfo c = some p → p.specId ≠ some s →
      probeCandidates client s (c :: rest) = probeCandidates client s rest) ∧
    (∀ (client : PanoClient) (s : Nat) (cs : List Nat),
      cs.Sorted (· ≤ ·) → ∀ c, probeCandidates client s cs = some c →
        ∀ x ∈ cs, x < c → probeNonMatch client s x) := by
  refine ⟨sortedCandidates_sorted, ?_, ?_, ?_, probe_first_match⟩
  · intro client s c rest hb
    simp [probeCandidates, hb]
  · intro client s c rest p hb hp
    simp [probeCandidates, hb, hp]
  · intro client s c rest p hb hp
    simp [probeCandidates, hb, hp]

/-- C9 witness: candidate 7 raises and is skipped, candidate 9 echoes
spec id 5 and is returned; the assembled candidate list for a concrete
match set is sorted, duplicate-free and excludes the spec id. -/
theorem claim_C9_page_scrape_witness :
    probeCandidates
        (PanoClient.mk
          (fun n => if n = 7 then none
            else if n = 9 then some ⟨some 5, none⟩ else some ⟨none, none⟩)
          (fun _ => none)) 5 [7, 9] =
      probeCandidates
        (PanoClient.mk
          (fun n => if n = 7 then none
            else if n = 9 then some ⟨some 5, none⟩ else some ⟨none, none⟩)
          (fun _ => none)) 5 [9] ∧
    probeCandidates
        (PanoClient.mk
          (fun n => if n = 7 then none
            else if n = 9 then some ⟨some 5, none⟩ else some ⟨none, none⟩)
          (fun _ => none)) 5 [9] = some 9 ∧
    ((sortedCandidates 5 [[9, 7, 9, 5]] []).Sorted (· ≤ ·) ∧
      (sortedCandidates 5 [[9, 7, 9, 5]] []).Nodup ∧
      5 ∉ sortedCandidates 5 [[9, 7, 9, 5]] []) :=
  ⟨claim_C9_page_scrape.2.1
      (PanoClient.mk
        (fun n => if n = 7 then none
          else if n = 9 then some ⟨some 5, none⟩ else some ⟨none, none⟩)
        (fun _ => none)) 5 7 [9] rfl,
   claim_C9_page_scrape.2.2.1
      (PanoClient.mk
        (fun n => if n = 7 then none
          else if n = 9 then some ⟨some 5, none⟩ else some ⟨none, none⟩)
        (fun _ => none)) 5 9 [] ⟨some 5, none⟩ rfl rfl,
   claim_C9_page_scrape.1 5 [[9, 7, 9, 5]] []⟩

section
variable {ρ δ κ : Type} [DecidableEq κ]
variable (rkey : ρ → κ) (dkey : δ → κ) (mk : δ → ρ) (upd : δ → ρ → ρ)

theorem findRow_append_of_ne (s : List ρ) (r : ρ) (v : κ) (h : rkey r ≠ v) :
    findRow rkey (s ++ [r]) v = findRow rkey s v := by
  induction s with
  | nil => simp [findRow, List.find?, h]
  | cons x rest ih =>
    by_cases hx : rkey x = v
    · simp [findRow, List.find?, hx]
    · simpa [findRow, List.find?, hx] using ih

theorem findRow_append_none (s : List ρ) (r : ρ) (v : κ)
    (h : findRow rkey s v = none) (h2 : rkey r = v) :
    findRow rkey (s ++ [r]) v = some r := by
  induction s with
  | nil => simp [findRow, List.find?, h2]
  | cons x rest ih =>
    by_cases hx : rkey x = v
    · simp [findRow, List.find?, hx] at h
    · simp only [findRow, List.find?, decide_eq_false hx] at h ⊢
      exact ih h

theorem updateFirst_findRow_ne (key_upd : ∀ d r, rkey (upd d r) = rkey r)
    (s : List ρ) (d : δ) (v : κ) (h : v ≠ dkey d) :
    findRow rkey (updateFirst rkey dkey upd s d) v = findRow rkey s v := by
  induction s with
  | nil => simp [updateFirst]
  | cons x rest ih =>
    by_cases hx : rkey x = dkey d
    · rw [updateFirst, if_pos hx]
      have h1 : ¬ (rkey (upd d x) = v) := by
        rw [key_upd, hx]
        exact fun hh => h hh.symm
      have h2 : ¬ (rkey x = v) := by
        rw [hx]
        exact fun hh => h hh.symm
      simp [findRow, List.find?, h1, h2]
    · rw [updateFirst, if_neg hx]
      by_cases hv : rkey x = v
      · simp [findRow, List.find?, hv]
      · simpa [findRow, List.find?, hv] using ih

theorem updateFirst_findRow_eq (key_upd : ∀ d r, rkey (upd d r) = rkey r)
    (s : List ρ) (d : δ) (r : ρ) (h : findRow rkey s (dkey d) = some r) :
    findRow rkey (updateFirst rkey dkey upd s d) (dkey d) = some (upd d r) := by
  induction s with
  | nil => simp [findRow, List.find?] at h
  | cons x rest ih =>
    by_cases hx : rkey x = dkey d
    · rw [updateFirst, if_pos hx]
      have hr : x = r := by
        simp [findRow, List.find?, hx] at h
        exact h
      have h1 : rkey (upd d x) = dkey d := by rw [key_upd, hx]
      subst hr
      simp [findRow, List.find?, h1]
    · rw [updateFirst, if_neg hx]
      simp only [findRow, List.find?, decide_eq_false hx] at h ⊢
      exact ih h

theorem updateFirst_id (s : List ρ) (d : δ) (r : ρ)
    (h : findRow rkey s (dkey d) = some r) (hid : upd d r = r) :
    updateFirst rkey dkey upd s d = s := by
  induction s with
  | nil => simp [findRow, List.find?] at h
  | cons x rest ih =>
    by_cases hx : rkey x = dkey d
    · rw [updateFirst, if_pos hx]
      have hr : x = r := by
        simp [findRow, List.find?, hx] at h
        exact h
      rw [hr, hid]
    · rw [updateFirst, if_neg hx]
      simp only [findRow, List.find?, decide_eq_false hx] at h
      rw [ih h]

end

section
variable {ρ δ κ : Type} [DecidableEq κ]
variable (rkey : ρ → κ) (dkey : δ → κ) (mk : δ → ρ) (upd : δ → ρ → ρ)

theorem dedupFirst_firstWins :
    ∀ (items : List δ) (seen : List κ),
      FirstWins dkey seen (dedupFirst dkey seen items).1 := by
  intro items
  induction items with
  | nil => intro seen; exact FirstWins.nil seen
  | cons d rest ih =>
    intro seen
    by_cases hd : dkey d ∈ seen
    · simpa [dedupFirst, hd] using ih seen
    · simp only [dedupFirst, if_neg hd]
      exact FirstWins.cons seen d _ hd (ih (dkey d :: seen))

theorem firstWins_not_mem {seen : List κ} {items : List δ}
    (h : FirstWins dkey seen items) : ∀ y ∈ items, dkey y ∉ seen := by
  induction h with
  | nil => intro y hy; simp at hy
  | cons seen d rest hd _ ih =>
    intro y hy
    rw [List.mem_cons] at hy
    rcases hy with hy | hy
    · rw [hy]; exact hd
    · exact fun hc => ih y hy (List.mem_cons_of_mem _ hc)

theorem dedupFirst_length :
    ∀ (items : List δ) (seen : List κ),
      (dedupFirst dkey seen items).1.length + (dedupFirst dkey seen items).2 =
        items.length := by
  intro items
  induction items with
  | nil => intro seen; simp [dedupFirst]
  | cons d rest ih =>
    intro seen
    by_cases hd : dkey d ∈ seen
    · have := ih seen
      simp only [dedupFirst, if_pos hd, List.length_cons]
      omega
    · have := ih (dkey d :: seen)
      simp only [dedupFirst, if_neg hd, List.length_cons]
      omega

theorem dedupFirst_mem_key :
    ∀ (items : List δ) (seen : List κ) (k : κ),
      k ∈ (dedupFirst dkey seen items).1.map dkey ↔
        (k ∈ items.map dkey ∧ k ∉ seen) := by
  intro items
  induction items with
  | nil => intro seen k; simp [dedupFirst]
  | cons d rest ih =>
    intro seen k
    by_cases hd : dkey d ∈ seen
    · simp only [dedupFirst, if_pos hd, ih, List.map_cons, List.mem_cons]
      constructor
      · rintro ⟨h1, h2⟩
        exact ⟨Or.inr h1, h2⟩
      · rintro ⟨h1 | h1, h2⟩
        · rw [h1] at h2
          exact absurd hd h2
        · exact ⟨h1, h2⟩
    · simp only [dedupFirst, if_neg hd, List.map_cons, List.mem_cons, ih]
      constructor
      · rintro (h | ⟨h1, h2⟩)
        · constructor
          · exact Or.inl h
          · rw [h]; exact hd
        · refine ⟨Or.inr h1, ?_⟩
          intro hc
          exact h2 (Or.inr hc)
      · rintro ⟨h1 | h1, h2⟩
        · exact Or.inl h1
        · by_cases hk : k = dkey d
          · exact Or.inl hk
          · refine Or.inr ⟨h1, ?_⟩
            rintro (hc | hc)
            · exact hk hc
            · exact h2 hc

theorem firstWins_pairwise {seen : List κ} {items : List δ}
    (h : FirstWins dkey seen items) :
    items.Pairwise (fun a b => dkey a ≠ dkey b) := by
  induction h with
  | nil => exact List.Pairwise.nil
  | cons seen d rest hd hfw ih =>
    refine List.Pairwise.cons ?_ ih
    intro y hy
    have := firstWins_not_mem dkey hfw y hy
    intro hc
    exact this (by rw [← hc]; exact List.mem_cons_self _ _)

end

section
variable {ρ δ κ : Type} [DecidableEq κ]
variable (rkey : ρ → κ) (dkey : δ → κ) (mk : δ → ρ) (upd : δ → ρ → ρ)

theorem upsertLoop_dedup :
    ∀ (items : List δ) (s : List ρ) (seen : List κ),
      upsertLoop rkey dkey mk upd s seen items =
        ((upsertLoop rkey dkey mk upd s seen (dedupFirst dkey seen items).1).1,
          ⟨(upsertLoop rkey dkey mk upd s seen (dedupFirst dkey seen items).1).2.inserted,
           (upsertLoop rkey dkey mk upd s seen (dedupFirst dkey seen items).1).2.updated,
           (upsertLoop rkey dkey mk upd s seen (dedupFirst dkey seen items).1).2.skipped +
             (dedupFirst dkey seen items).2⟩) := by
  intro items
  induction items with
  | nil => intro s seen; simp [dedupFirst, upsertLoop]
  | cons d rest ih =>
    intro s seen
    by_cases hd : dkey d ∈ seen
    · simp only [dedupFirst, if_pos hd]
      simp only [upsertLoop, if_pos hd]
      rw [ih s seen]
      simp [Nat.add_assoc]
    · simp only [dedupFirst, if_neg hd]
      simp only [upsertLoop, if_neg hd]
      cases hf : findRow rkey s (dkey d) with
      | some r =>
        simp only [hf]
        rw [ih (updateFirst rkey dkey upd s d) (dkey d :: seen)]
      | none =>
        simp only [hf]
        rw [ih (s ++ [mk d]) (dkey d :: seen)]

theorem upsertLoop_firstWins_counts :
    ∀ (items : List δ) (s : List ρ) (seen : List κ),
      FirstWins dkey seen items →
      (upsertLoop rkey dkey mk upd s seen items).2.skipped = 0 ∧
      (upsertLoop rkey dkey mk upd s seen items).2.inserted +
        (upsertLoop rkey dkey mk upd s seen items).2.updated = items.length := by
  intro items
  induction items with
  | nil => intro s seen _; simp [upsertLoop]
  | cons d rest ih =>
    intro s seen hfw
    cases hfw with
    | cons _ _ _ hd hfw2 =>
      simp only [upsertLoop, if_neg hd]
      cases hf : findRow rkey s (dkey d) with
      | some r =>
        have := ih (updateFirst rkey dkey upd s d) (dkey d :: seen) hfw2
        simp only [hf, List.length_cons]
        constructor
        · exact this.1
        · omega
      | none =>
        have := ih (s ++ [mk d]) (dkey d :: seen) hfw2
        simp only [hf, List.length_cons]
        constructor
        · exact this.1
        · omega

theorem upsertLoop_preserve
    (key_upd : ∀ d r, rkey (upd d r) = rkey r)
    (key_mk : ∀ d, rkey (mk d) = dkey d) :
    ∀ (items : List δ) (s : List ρ) (seen : List κ) (v : κ),
      (∀ y ∈ items, dkey y ≠ v) →
      findRow rkey (upsertLoop rkey dkey mk upd s seen items).1 v =
        findRow rkey s v := by
  intro items
  induction items with
  | nil => intro s seen v _; simp [upsertLoop]
  | cons d rest ih =>
    intro s seen v hne
    have hd : dkey d ≠ v := hne d (List.mem_cons_self _ _)
    have hrest : ∀ y ∈ rest, dkey y ≠ v :=
      fun y hy => hne y (List.mem_cons_of_mem _ hy)
    by_cases hs : dkey d ∈ seen
    · simp only [upsertLoop, if_pos hs]
      exact ih s seen v hrest
    · simp only [upsertLoop, if_neg hs]
      cases hf : findRow rkey s (dkey d) with
      | some r =>
        simp only [hf]
        rw [ih _ _ v hrest]
        exact updateFirst_findRow_ne rkey dkey upd key_upd s d v
          (fun h => hd h.symm)
      | none =>
        simp only [hf]
        rw [ih _ _ v hrest]
        exact findRow_append_of_ne rkey s (mk d) v (by rw [key_mk]; exact hd)

theorem upsertLoop_after_run
    (key_upd : ∀ d r, rkey (upd d r) = rkey r)
    (key_mk : ∀ d, rkey (mk d) = dkey d)
    (upd_idem : ∀ d r, upd d (upd d r) = upd d r)
    (upd_mk : ∀ d, upd d (mk d) = mk d) :
    ∀ (items : List δ) (s : List ρ) (seen : List κ),
      FirstWins dkey seen items →
      ∀ x ∈ items, ∃ rr,
        findRow rkey (upsertLoop rkey dkey mk upd s seen items).1 (dkey x) =
          some rr ∧ upd x rr = rr := by
  intro items
  induction items with
  | nil => intro s seen _ x hx; simp at hx
  | cons d rest ih =>
    intro s seen hfw x hx
    cases hfw with
    | cons _ _ _ hd hfw2 =>
      have hrest_ne : ∀ y ∈ rest, dkey y ≠ dkey d := by
        intro y hy
        have := firstWins_not_mem dkey hfw2 y hy
        intro hc
        exact this (by rw [hc]; exact List.mem_cons_self _ _)
      rw [List.mem_cons] at hx
      simp only [upsertLoop, if_neg hd]
      rcases hx with hx | hx
      · subst hx
        cases hf : findRow rkey s (dkey x) with
        | some r =>
          refine ⟨upd x r, ?_, upd_idem x r⟩
          simp only [hf]
          rw [upsertLoop_preserve rkey dkey mk upd key_upd key_mk rest _ _
            (dkey x) hrest_ne]
          exact updateFirst_findRow_eq rkey dkey upd key_upd s x r hf
        | none =>
          refine ⟨mk x, ?_, upd_mk x⟩
          simp only [hf]
          rw [upsertLoop_preserve rkey dkey mk upd key_upd key_mk rest _ _
            (dkey x) hrest_ne]
          exact findRow_append_none rkey s (mk x) (dkey x) hf (key_mk x)
      · cases hf : findRow rkey s (dkey d) with
        | some r =>
          simp only [hf]
          exact ih _ _ hfw2 x hx
        | none =>
          simp only [hf]
          exact ih _ _ hfw2 x hx

theorem upsertLoop_identity :
    ∀ (items : List δ) (s : List ρ) (seen : List κ),
      (∀ x ∈ (dedupFirst dkey seen items).1, ∃ rr,
        findRow rkey s (dkey x) = some rr ∧ upd x rr = rr) →
      (upsertLoop rkey dkey mk upd s seen items).1 = s ∧
      (upsertLoop rkey dkey mk upd s seen items).2.inserted = 0 := by
  intro items
  induction items with
  | nil => intro s seen _; simp [upsertLoop]
  | cons d rest ih =>
    intro s seen hp
    by_cases hd : dkey d ∈ seen
    · simp only [dedupFirst, if_pos hd] at hp
      simp only [upsertLoop, if_pos hd]
      exact ih s seen hp
    · simp only [dedupFirst, if_neg hd] at hp
      obtain ⟨rr, hfind, hid⟩ := hp d (List.mem_cons_self _ _)
      have hrest : ∀ x ∈ (dedupFirst dkey (dkey d :: seen) rest).1, ∃ rr,
          findRow rkey s (dkey x) = some rr ∧ upd x rr = rr :=
        fun x hx => hp x (List.mem_cons_of_mem _ hx)
      simp only [upsertLoop, if_neg hd, hfind]
      rw [updateFirst_id rkey dkey upd s d rr hfind hid]
      exact ih s (dkey d :: seen) hrest

end

section
variable {ρ δ κ : Type} [DecidableEq κ]
variable (rkey : ρ → κ) (dkey : δ → κ) (mk : δ → ρ) (upd : δ → ρ → ρ)

theorem onConflict_preserve
    (key_upd : ∀ d r, rkey (upd d r) = rkey r)
    (key_mk : ∀ d, rkey (mk d) = dkey d) :
    ∀ (ds : List δ) (s : List ρ) (v : κ),
      (∀ y ∈ ds, dkey y ≠ v) →
      findRow rkey (onConflictApply rkey dkey mk upd s ds) v =
        findRow rkey s v := by
  intro ds
  induction ds with
  | nil => intro s v _; simp [onConflictApply]
  | cons d rest ih =>
    intro s v hne
    have hd : dkey d ≠ v := hne d (List.mem_cons_self _ _)
    have hrest : ∀ y ∈ rest, dkey y ≠ v :=
      fun y hy => hne y (List.mem_cons_of_mem _ hy)
    cases hf : findRow rkey s (dkey d) with
    | some r =>
      simp only [onConflictApply, hf]
      rw [ih _ v hrest]
      exact updateFirst_findRow_ne rkey dkey upd key_upd s d v
        (fun h => hd h.symm)
    | none =>
      simp only [onConflictApply, hf]
      rw [ih _ v hrest]
      exact findRow_append_of_ne rkey s (mk d) v (by rw [key_mk]; exact hd)

theorem onConflict_after_run
    (key_upd : ∀ d r, rkey (upd d r) = rkey r)
    (key_mk : ∀ d, rkey (mk d) = dkey d)
    (upd_idem : ∀ d r, upd d (upd d r) = upd d r)
    (upd_mk : ∀ d, upd d (mk d) = mk d) :
    ∀ (ds : List δ) (s : List ρ),
      ds.Pairwise (fun a b => dkey a ≠ dkey b) →
      ∀ x ∈ ds, ∃ rr,
        findRow rkey (onConflictApply rkey dkey mk upd s ds) (dkey x) =
          some rr ∧ upd x rr = rr := by
  intro ds
  induction ds with
  | nil => intro s _ x hx; simp at hx
  | cons d rest ih =>
    intro s hpw x hx
    rw [List.pairwise_cons] at hpw
    rw [List.mem_cons] at hx
    rcases hx with hx | hx
    · subst hx
      cases hf : findRow rkey s (dkey x) with
      | some r =>
        refine ⟨upd x r, ?_, upd_idem x r⟩
        simp only [onConflictApply, hf]
        rw [onConflict_preserve rkey dkey mk upd key_upd key_mk rest _
          (dkey x) (fun y hy => (hpw.1 y hy).symm)]
        exact updateFirst_findRow_eq rkey dkey upd key_upd s x r hf
      | none =>
        refine ⟨mk x, ?_, upd_mk x⟩
        simp only [onConflictApply, hf]
        rw [onConflict_preserve rkey dkey mk upd key_upd key_mk rest _
          (dkey x) (fun y hy => (hpw.1 y hy).symm)]
        exact findRow_append_none rkey s (mk x) (dkey x) hf (key_mk x)
    · cases hf : findRow rkey s (dkey d) with
      | some r =>
        simp only [onConflictApply, hf]
        exact ih _ hpw.2 x hx
      | none =>
        simp only [onConflictApply, hf]
        exact ih _ hpw.2 x hx

theorem onConflict_identity :
    ∀ (ds : List δ) (s : List ρ),
      (∀ x ∈ ds, ∃ rr, findRow rkey s (dkey x) = some rr ∧ upd x rr = rr) →
      onConflictApply rkey dkey mk upd s ds = s := by
  intro ds
  induction ds with
  | nil => intro s _; simp [onConflictApply]
  | cons d rest ih =>
    intro s hp
    obtain ⟨rr, hfind, hid⟩ := hp d (List.mem_cons_self _ _)
    simp only [onConflictApply, hfind]
    rw [updateFirst_id rkey dkey upd s d rr hfind hid]
    exact ih s (fun x hx => hp x (List.mem_cons_of_mem _ hx))

end

section
variable {ρ δ κ : Type} [DecidableEq κ]
variable (dkey : δ → κ)

theorem dedupFirst_map_nodup (items : List δ) (seen : List κ) :
    ((dedupFirst dkey seen items).1.map dkey).Nodup := by
  have hp := firstWins_pairwise dkey (dedupFirst_firstWins dkey items seen)
  rw [List.Nodup, List.pairwise_map]
  exact hp

theorem dedupFirst_length_distinct (items : List δ) :
    (dedupFirst dkey [] items).1.length = (items.map dkey).dedup.length := by
  have hset : ((dedupFirst dkey [] items).1.map dkey).toFinset =
      (items.map dkey).toFinset := by
    apply Finset.ext
    intro k
    rw [List.mem_toFinset, List.mem_toFinset, dedupFirst_mem_key]
    simp
  have h1 := List.card_toFinset ((dedupFirst dkey [] items).1.map dkey)
  have h2 := List.card_toFinset (items.map dkey)
  rw [hset] at h1
  rw [List.Nodup.dedup (dedupFirst_map_nodup dkey items [])] at h1
  rw [h2] at h1
  rw [h1, List.length_map]

end

theorem brands_idem (s : List Brand) (items : List BrandData) :
    (upsert_brands (upsert_brands s items).1 items).1 =
      (upsert_brands s items).1 ∧
    (upsert_brands (upsert_brands s items).1 items).2.inserted = 0 ∧
    (upsert_brands (upsert_brands s items).1 items).2.updated +
      (upsert_brands (upsert_brands s items).1 items).2.skipped =
        items.length := by
  have hfw := dedupFirst_firstWins BrandData.id items ([] : List Int)
  have h1 := upsertLoop_dedup Brand.id BrandData.id brandMk brandUpd items s []
  have h2 := upsertLoop_after_run Brand.id BrandData.id brandMk brandUpd
    (fun _ _ => rfl) (fun _ => rfl) (fun _ _ => rfl) (fun _ => rfl)
    (dedupFirst BrandData.id [] items).1 s [] hfw
  unfold upsert_brands
  have hst : (upsertLoop Brand.id BrandData.id brandMk brandUpd s [] items).1 =
      (upsertLoop Brand.id BrandData.id brandMk brandUpd s []
        (dedupFirst BrandData.id [] items).1).1 := by
    rw [h1]
  rw [hst]
  set s1 := (upsertLoop Brand.id BrandData.id brandMk brandUpd s []
    (dedupFirst BrandData.id [] items).1).1 with hs1
  have h3 := upsertLoop_identity Brand.id BrandData.id brandMk brandUpd
    items s1 [] h2
  refine ⟨h3.1, h3.2, ?_⟩
  have h4 := upsertLoop_dedup Brand.id BrandData.id brandMk brandUpd items s1 []
  have h5 := upsertLoop_firstWins_counts Brand.id BrandData.id brandMk brandUpd
    (dedupFirst BrandData.id [] items).1 s1 [] hfw
  have h6 := dedupFirst_length BrandData.id items ([] : List Int)
  have hins : (upsertLoop Brand.id BrandData.id brandMk brandUpd s1 []
      items).2.inserted = (upsertLoop Brand.id BrandData.id brandMk brandUpd s1 []
      (dedupFirst BrandData.id [] items).1).2.inserted := by rw [h4]
  have hupd : (upsertLoop Brand.id BrandData.id brandMk brandUpd s1 []
      items).2.updated = (upsertLoop Brand.id BrandData.id brandMk brandUpd s1 []
      (dedupFirst BrandData.id [] items).1).2.updated := by rw [h4]
  have hskp : (upsertLoop Brand.id BrandData.id brandMk brandUpd s1 []
      items).2.skipped = (upsertLoop Brand.id BrandData.id brandMk brandUpd s1 []
      (dedupFirst BrandData.id [] items).1).2.skipped +
      (dedupFirst BrandData.id [] items).2 := by rw [h4]
  rw [hupd, hskp, h5.1]
  have := h3.2
  rw [hins] at this
  omega

theorem photos_idem (s : List Photo) (items : List PhotoData) :
    (upsert_photos (upsert_photos s items).1 items).1 =
      (upsert_photos s items).1 ∧
    (upsert_photos (upsert_photos s items).1 items).2 =
      ⟨(dedupFirst PhotoData.id [] items).1.length, 0,
        (dedupFirst PhotoData.id [] items).2⟩ := by
  cases items with
  | nil => simp [upsert_photos, dedupFirst]
  | cons d rest =>
    have hfw := dedupFirst_firstWins PhotoData.id (d :: rest) ([] : List String)
    have hpw := firstWins_pairwise PhotoData.id hfw
    have hne : ¬ (d :: rest).isEmpty := by simp
    have hdd : (dedupFirst PhotoData.id [] (d :: rest)).1 =
        d :: (dedupFirst PhotoData.id [PhotoData.id d] rest).1 := by
      simp [dedupFirst]
    have hdd2 : ¬ (dedupFirst PhotoData.id [] (d :: rest)).1.isEmpty := by
      rw [hdd]; simp
    have hstep1 : upsert_photos s (d :: rest) =
        (onConflictApply Photo.id PhotoData.id photoMk photoUpd s
          (dedupFirst PhotoData.id [] (d :: rest)).1,
          ⟨(dedupFirst PhotoData.id [] (d :: rest)).1.length, 0,
            (dedupFirst PhotoData.id [] (d :: rest)).2⟩) := by
      unfold upsert_photos
      rw [if_neg (by simp), if_neg hdd2]
    set s1 := onConflictApply Photo.id PhotoData.id photoMk photoUpd s
      (dedupFirst PhotoData.id [] (d :: rest)).1 with hs1
    have h2 := onConflict_after_run Photo.id PhotoData.id photoMk photoUpd
      (fun _ _ => rfl) (fun _ => rfl) (fun _ _ => rfl) (fun _ => rfl)
      (dedupFirst PhotoData.id [] (d :: rest)).1 s hpw
    have h3 := onConflict_identity Photo.id PhotoData.id photoMk photoUpd
      (dedupFirst PhotoData.id [] (d :: rest)).1 s1 h2
    have hstep2 : upsert_photos s1 (d :: rest) =
        (onConflictApply Photo.id PhotoData.id photoMk photoUpd s1
          (dedupFirst PhotoData.id [] (d :: rest)).1,
          ⟨(dedupFirst PhotoData.id [] (d :: rest)).1.length, 0,
            (dedupFirst PhotoData.id [] (d :: rest)).2⟩) := by
      unfold upsert_photos
      rw [if_neg (by simp), if_neg hdd2]
    rw [hstep1]
    simp only
    rw [hstep2, h3]
    exact ⟨rfl, rfl⟩

theorem paramTitle_key_upd (d : ParamTitleData) (r : ParamTitle) :
    paramTitleKey (paramTitleUpd d r) = paramTitleKey r := by
  unfold paramTitleKey paramTitleUpd
  rfl

theorem paramTitle_key_mk (d : ParamTitleData) :
    paramTitleKey (paramTitleMk d) = paramTitleDataKey d := by
  unfold paramTitleKey paramTitleMk paramTitleDataKey
  rfl

theorem paramTitle_upd_idem (d : ParamTitleData) (r : ParamTitle) :
    paramTitleUpd d (paramTitleUpd d r) = paramTitleUpd d r := by
  unfold paramTitleUpd
  rfl

theorem paramTitle_upd_mk (d : ParamTitleData) :
    paramTitleUpd d (paramTitleMk d) = paramTitleMk d := by
  unfold paramTitleUpd paramTitleMk
  rfl

theorem param_titles_idem (s : List ParamTitle) (items : List ParamTitleData) :
    (upsert_param_titles (upsert_param_titles s items).1 items).1 =
      (upsert_param_titles s items).1 ∧
    (upsert_param_titles (upsert_param_titles s items).1 items).2 =
      ⟨(dedupFirst paramTitleDataKey [] items).1.length, 0,
        (dedupFirst paramTitleDataKey [] items).2⟩ := by
  cases items with
  | nil => simp [upsert_param_titles, dedupFirst]
  | cons d rest =>
    have hfw := dedupFirst_firstWins paramTitleDataKey (d :: rest)
      ([] : List (Int × Int))
    have hpw := firstWins_pairwise paramTitleDataKey hfw
    have hdd : (dedupFirst paramTitleDataKey [] (d :: rest)).1 =
        d :: (dedupFirst paramTitleDataKey [paramTitleDataKey d] rest).1 := by
      simp [dedupFirst]
    have hdd2 : ¬ (dedupFirst paramTitleDataKey [] (d :: rest)).1.isEmpty := by
      rw [hdd]; simp
    have hstep1 : upsert_param_titles s (d :: rest) =
        (onConflictApply paramTitleKey paramTitleDataKey paramTitleMk
          paramTitleUpd s (dedupFirst paramTitleDataKey [] (d :: rest)).1,
          ⟨(dedupFirst paramTitleDataKey [] (d :: rest)).1.length, 0,
            (dedupFirst paramTitleDataKey [] (d :: rest)).2⟩) := by
      unfold upsert_param_titles
      rw [if_neg hdd2]
    set s1 := onConflictApply paramTitleKey paramTitleDataKey paramTitleMk
      paramTitleUpd s (dedupFirst paramTitleDataKey [] (d :: rest)).1 with hs1
    have h2 := onConflict_after_run paramTitleKey paramTitleDataKey paramTitleMk
      paramTitleUpd paramTitle_key_upd paramTitle_key_mk paramTitle_upd_idem
      paramTitle_upd_mk (dedupFirst paramTitleDataKey [] (d :: rest)).1 s hpw
    have h3 := onConflict_identity paramTitleKey paramTitleDataKey paramTitleMk
      paramTitleUpd (dedupFirst paramTitleDataKey [] (d :: rest)).1 s1 h2
    have hstep2 : upsert_param_titles s1 (d :: rest) =
        (onConflictApply paramTitleKey paramTitleDataKey paramTitleMk
          paramTitleUpd s1 (dedupFirst paramTitleDataKey [] (d :: rest)).1,
          ⟨(dedupFirst paramTitleDataKey [] (d :: rest)).1.length, 0,
            (dedupFirst paramTitleDataKey [] (d :: rest)).2⟩) := by
      unfold upsert_param_titles
      rw [if_neg hdd2]
    rw [hstep1]
    simp only
    rw [hstep2, h3]
    exact ⟨rfl, rfl⟩

set_option maxRecDepth 8192 in
/-- C1 counterexample: `upsert_photos` applied a second time with the
same single-record batch reports `inserted = 1`, not zero — the bulk
`ON CONFLICT` path counts every deduplicated record as inserted on every
application. -/
theorem claim_C1_upsert_idempotency_counterexample :
    (upsert_photos
      (upsert_photos [] [⟨"p1", 10, 100, 1, 0, some ("u"), none⟩]).1
      [⟨"p1", 10, 100, 1, 0, some ("u"), none⟩]).2.inserted = 1 ∧
    (1 : Nat) ≠ 0 := by
  constructor
  · decide
  · decide

theorem brands_firstwins_counts (s : List Brand) (items : List BrandData) :
    (upsert_brands s items).1 =
      (upsertLoop Brand.id BrandData.id brandMk brandUpd s []
        (dedupFirst BrandData.id [] items).1).1 ∧
    (upsert_brands s items).2.skipped =
      items.length - (items.map BrandData.id).dedup.length ∧
    (upsert_brands s items).2.inserted + (upsert_brands s items).2.updated =
      (items.map BrandData.id).dedup.length := by
  have hfw := dedupFirst_firstWins BrandData.id items ([] : List Int)
  have h1 := upsertLoop_dedup Brand.id BrandData.id brandMk brandUpd items s []
  have h5 := upsertLoop_firstWins_counts Brand.id BrandData.id brandMk brandUpd
    (dedupFirst BrandData.id [] items).1 s [] hfw
  have h6 := dedupFirst_length BrandData.id items ([] : List Int)
  have h7 := dedupFirst_length_distinct BrandData.id items
  unfold upsert_brands
  rw [h1]
  refine ⟨rfl, ?_, ?_⟩
  · simp only [h5.1]
    omega
  · simp only
    omega

theorem photo_categories_firstwins_counts (s : List PhotoCategory)
    (items : List PhotoCategoryData) :
    (upsert_photo_categories s items).1 =
      (upsertLoop photoCategoryKey photoCategoryDataKey photoCategoryMk
        photoCategoryUpd s []
        (dedupFirst photoCategoryDataKey [] items).1).1 ∧
    (upsert_photo_categories s items).2.skipped =
      items.length - (items.map photoCategoryDataKey).dedup.length ∧
    (upsert_photo_categories s items).2.inserted +
      (upsert_photo_categories s items).2.updated =
        (items.map photoCategoryDataKey).dedup.length := by
  have hfw := dedupFirst_firstWins photoCategoryDataKey items
    ([] : List (Int × Int))
  have h1 := upsertLoop_dedup photoCategoryKey photoCategoryDataKey
    photoCategoryMk photoCategoryUpd items s []
  have h5 := upsertLoop_firstWins_counts photoCategoryKey photoCategoryDataKey
    photoCategoryMk photoCategoryUpd
    (dedupFirst photoCategoryDataKey [] items).1 s [] hfw
  have h6 := dedupFirst_length photoCategoryDataKey items
    ([] : List (Int × Int))
  have h7 := dedupFirst_length_distinct photoCategoryDataKey items
  unfold upsert_photo_categories
  rw [h1]
  refine ⟨rfl, ?_, ?_⟩
  · simp only [h5.1]
    omega
  · simp only
    omega

theorem photos_firstwins_counts (s : List Photo) (items : List PhotoData) :
    (upsert_photos s items).1 =
      onConflictApply Photo.id PhotoData.id photoMk photoUpd s
        (dedupFirst PhotoData.id [] items).1 ∧
    (upsert_photos s items).2.skipped =
      items.length - (items.map PhotoData.id).dedup.length ∧
    (upsert_photos s items).2.inserted + (upsert_photos s items).2.updated =
      (items.map PhotoData.id).dedup.length := by
  have h6 := dedupFirst_length PhotoData.id items ([] : List String)
  have h7 := dedupFirst_length_distinct PhotoData.id items
  cases items with
  | nil => simp [upsert_photos, dedupFirst, onConflictApply]
  | cons d rest =>
    have hdd : (dedupFirst PhotoData.id [] (d :: rest)).1 =
        d :: (dedupFirst PhotoData.id [PhotoData.id d] rest).1 := by
      simp [dedupFirst]
    have hdd2 : ¬ (dedupFirst PhotoData.id [] (d :: rest)).1.isEmpty := by
      rw [hdd]; simp
    have hstep1 : upsert_photos s (d :: rest) =
        (onConflictApply Photo.id PhotoData.id photoMk photoUpd s
          (dedupFirst PhotoData.id [] (d :: rest)).1,
          ⟨(dedupFirst PhotoData.id [] (d :: rest)).1.length, 0,
            (dedupFirst PhotoData.id [] (d :: rest)).2⟩) := by
      unfold upsert_photos
      rw [if_neg (by simp), if_neg hdd2]
    rw [hstep1]
    refine ⟨rfl, ?_, ?_⟩
    · simp only
      omega
    · simp only
      omega

theorem filter_removeFirst (p : ParamValue → Bool) (store : List ParamValue)
    (rA : ParamValue) (hstore : store.filter p = [rA]) (hp : p rA = true) :
    (removeFirst store rA).filter p = [] ∧ rA ∉ removeFirst store rA := by
  induction store with
  | nil => simp [removeFirst]
  | cons x rest ih =>
    by_cases hx : x = rA
    · subst hx
      rw [List.filter_cons, if_pos hp] at hstore
      have hrest : rest.filter p = [] := by
        injection hstore
      rw [removeFirst, if_pos rfl]
      refine ⟨hrest, ?_⟩
      intro hc
      have := List.mem_filter.mpr ⟨hc, hp⟩
      rw [hrest] at this
      simp at this
    · have hpx : p x = false := by
        by_cases hpx : p x = true
        · rw [List.filter_cons, if_pos hpx] at hstore
          injection hstore with h1 h2
          exact absurd h1 hx
        · simpa using hpx
      rw [List.filter_cons, if_neg (by simp [hpx])] at hstore
      have := ih hstore
      rw [removeFirst, if_neg hx]
      refine ⟨?_, ?_⟩
      · rw [List.filter_cons, if_neg (by simp [hpx])]
        exact this.1
      · rw [List.mem_cons]
        rintro (hc | hc)
        · exact hx hc.symm
        · exact this.2 hc

theorem replaceValue_decomp (store : List ParamValue) (rA : ParamValue)
    (v : Option String) (hmem : rA ∈ store) :
    ∃ pre post, store = pre ++ rA :: post ∧
      replaceValue store rA v = pre ++ ({ rA with value := v }) :: post := by
  induction store with
  | nil => simp at hmem
  | cons x rest ih =>
    by_cases hx : x = rA
    · subst hx
      refine ⟨[], rest, rfl, ?_⟩
      rw [replaceValue, if_pos rfl]
      rfl
    · rw [List.mem_cons] at hmem
      rcases hmem with hmem | hmem
      · exact absurd hmem.symm hx
      · obtain ⟨pre, post, h1, h2⟩ := ih hmem
        refine ⟨x :: pre, post, by rw [h1]; rfl, ?_⟩
        rw [replaceValue, if_neg hx, h2]
        rfl

theorem pv_candidates_filter (store : List ParamValue) (q : ParamValue → Bool)
    (tk : Int × Int × String)
    (himp : ∀ v : ParamValue,
      (v.specification_id, v.title_id, pvRowSub v) = tk → q v = true) :
    pvCandidates (store.filter q) tk =
      store.filter (fun v =>
        decide ((v.specification_id, v.title_id, pvRowSub v) = tk)) := by
  unfold pvCandidates
  rw [List.filter_filter]
  apply List.filter_congr
  intro v hv
  by_cases h : (v.specification_id, v.title_id, pvRowSub v) = tk
  · simp [h, himp v h]
  · simp [h]

theorem upv_single_eq (store : List ParamValue) (it : ParamValueData) :
    upsert_param_values store [it] =
      ((pvGo (store.filter (fun v =>
          [it.specification_id].contains v.specification_id &&
          [it.title_id].contains v.title_id)) store
        [(it, pyTrunc 512 it.item_name, pyTrunc 512 (it.sub_name.getD ("")))]).1,
       ⟨(pvGo (store.filter (fun v =>
          [it.specification_id].contains v.specification_id &&
          [it.title_id].contains v.title_id)) store
        [(it, pyTrunc 512 it.item_name, pyTrunc 512 (it.sub_name.getD ("")))]).2.1,
        (pvGo (store.filter (fun v =>
          [it.specification_id].contains v.specification_id &&
          [it.title_id].contains v.title_id)) store
        [(it, pyTrunc 512 it.item_name, pyTrunc 512 (it.sub_name.getD ("")))]).2.2,
        0⟩) := by
  unfold upsert_param_values
  simp [pvDedup]

/-- C2: with exactly one stored row for the stable key
`(spec, title, sub_name)` carrying item name A, upserting one record with
the same stable key and item name B ends with exactly one row for that
stable key, carrying B and the incoming value, the old row physically
gone, counted as one insert; and if the names agree, only the row's value
is updated in place — no row is deleted or reinserted. -/
theorem claim_C2_stale_name_reconciliation (store : List ParamValue)
    (rA : ParamValue) (it : ParamValueData)
    (hsid : rA.specification_id = it.specification_id)
    (htid : rA.title_id = it.title_id)
    (hsub : pvRowSub rA = pyTrunc 512 (it.sub_name.getD ("")))
    (hstore : store.filter (fun v =>
      decide ((v.specification_id, v.title_id, pvRowSub v) =
        (it.specification_id, it.title_id,
          pyTrunc 512 (it.sub_name.getD (""))))) = [rA]) :
    (rA.item_name ≠ pyTrunc 512 it.item_name →
      (upsert_param_values store [it]).1.filter (fun v =>
          decide ((v.specification_id, v.title_id, pvRowSub v) =
            (it.specification_id, it.title_id,
              pyTrunc 512 (it.sub_name.getD (""))))) =
        [⟨it.specification_id, it.title_id, pyTrunc 512 it.item_name,
          some (pyTrunc 512 (it.sub_name.getD (""))), it.value⟩] ∧
      rA ∉ (upsert_param_values store [it]).1 ∧
      (upsert_param_values store [it]).2 = ⟨1, 0, 0⟩) ∧
    (rA.item_name = pyTrunc 512 it.item_name →
      ∃ pre post, store = pre ++ rA :: post ∧
        (upsert_param_values store [it]).1 =
          pre ++ ({ rA with value := it.value }) :: post ∧
        (upsert_param_values store [it]).2 = ⟨0, 1, 0⟩) := by
  have hpA : (fun v : ParamValue =>
      decide ((v.specification_id, v.title_id, pvRowSub v) =
        (it.specification_id, it.title_id,
          pyTrunc 512 (it.sub_name.getD (""))))) rA = true := by
    simp only [decide_eq_true_eq]
    rw [hsid, htid, hsub]
  have hcand : pvCandidates (store.filter (fun v =>
      [it.specification_id].contains v.specification_id &&
      [it.title_id].contains v.title_id))
      (it.specification_id, it.title_id, pyTrunc 512 (it.sub_name.getD (""))) =
      [rA] := by
    rw [pv_candidates_filter]
    · exact hstore
    · intro v hv
      rw [Prod.mk.injEq, Prod.mk.injEq] at hv
      simp [hv.1, hv.2.1]
  rw [upv_single_eq]
  constructor
  · intro hne
    have hgo : pvGo (store.filter (fun v =>
        [it.specification_id].contains v.specification_id &&
        [it.title_id].contains v.title_id)) store
        [(it, pyTrunc 512 it.item_name, pyTrunc 512 (it.sub_name.getD ("")))] =
        ((removeFirst store rA) ++
          [⟨it.specification_id, it.title_id, pyTrunc 512 it.item_name,
            some (pyTrunc 512 (it.sub_name.getD (""))), it.value⟩], 1, 0) := by
      unfold pvGo
      rw [hcand]
      have hcorrect : pvFindCorrect [rA] (pyTrunc 512 it.item_name) = none := by
        simp [pvFindCorrect, hne]
      have hold : [rA].filter (fun c =>
          decide (c.item_name ≠ pyTrunc 512 it.item_name)) = [rA] := by
        simp [hne]
      simp only [hcorrect, hold, List.foldl_cons, List.foldl_nil]
      unfold pvGo
      rfl
    rw [hgo]
    simp only
    have hrem := filter_removeFirst _ store rA hstore hpA
    refine ⟨?_, ?_, by trivial⟩
    · rw [List.filter_append, hrem.1]
      simp [pvRowSub]
    · rw [List.mem_append]
      rintro (hc | hc)
      · exact hrem.2 hc
      · rw [List.mem_singleton] at hc
        apply hne
        rw [hc]
  · intro heq
    have hmem : rA ∈ store := by
      have : rA ∈ store.filter (fun v =>
          decide ((v.specification_id, v.title_id, pvRowSub v) =
            (it.specification_id, it.title_id,
              pyTrunc 512 (it.sub_name.getD (""))))) := by
        rw [hstore]; exact List.mem_singleton_self rA
      exact (List.mem_filter.mp this).1
    obtain ⟨pre, post, hdec, hrepl⟩ :=
      replaceValue_decomp store rA it.value hmem
    have hgo : pvGo (store.filter (fun v =>
        [it.specification_id].contains v.specification_id &&
        [it.title_id].contains v.title_id)) store
        [(it, pyTrunc 512 it.item_name, pyTrunc 512 (it.sub_name.getD ("")))] =
        (replaceValue store rA it.value, 0, 1) := by
      unfold pvGo
      rw [hcand]
      have hcorrect : pvFindCorrect [rA] (pyTrunc 512 it.item_name) = some rA := by
        simp [pvFindCorrect, heq]
      have hold : [rA].filter (fun c =>
          decide (c.item_name ≠ pyTrunc 512 it.item_name)) = [] := by
        simp [heq]
      simp only [hcorrect, hold, List.foldl_nil]
      unfold pvGo
      rfl
    rw [hgo]
    exact ⟨pre, post, hdec, hrepl, rfl⟩

/-- C1 (amended): re-applying the same batch leaves the stored state
identical for all three upsert styles; the row-at-a-time upserts
(`upsert_brands` as representative) report zero inserted on the second
application with every record counted updated or skipped, but the
`ON CONFLICT`-based `upsert_photos` and `upsert_param_titles` report
every deduplicated record as inserted on each application — the second
run reports the distinct-key count, not zero. -/
theorem claim_C1_upsert_idempotency :
    (∀ (s : List Brand) (items : List BrandData),
      (upsert_brands (upsert_brands s items).1 items).1 =
        (upsert_brands s items).1 ∧
      (upsert_brands (upsert_brands s items).1 items).2.inserted = 0 ∧
      (upsert_brands (upsert_brands s items).1 items).2.updated +
        (upsert_brands (upsert_brands s items).1 items).2.skipped =
          items.length) ∧
    (∀ (s : List Photo) (items : List PhotoData),
      (upsert_photos (upsert_photos s items).1 items).1 =
        (upsert_photos s items).1 ∧
      (upsert_photos (upsert_photos s items).1 items).2 =
        ⟨(dedupFirst PhotoData.id [] items).1.length, 0,
          (dedupFirst PhotoData.id [] items).2⟩) ∧
    (∀ (s : List ParamTitle) (items : List ParamTitleData),
      (upsert_param_titles (upsert_param_titles s items).1 items).1 =
        (upsert_param_titles s items).1 ∧
      (upsert_param_titles (upsert_param_titles s items).1 items).2 =
        ⟨(dedupFirst paramTitleDataKey [] items).1.length, 0,
          (dedupFirst paramTitleDataKey [] items).2⟩) :=
  ⟨brands_idem, photos_idem, param_titles_idem⟩

/-- C7: for `upsert_brands`, `upsert_photos` and
`upsert_photo_categories`, duplicate keys in a batch resolve
first-occurrence-wins — the stored result equals the result of applying
only the first occurrence of every key, later duplicates only increment
the skipped count (`skipped = batch size − distinct keys`), and
`inserted + updated` equals the number of distinct keys in the batch. -/
theorem claim_C7_first_occurrence_wins :
    (∀ (s : List Brand) (items : List BrandData),
      (upsert_brands s items).1 =
        (upsertLoop Brand.id BrandData.id brandMk brandUpd s []
          (dedupFirst BrandData.id [] items).1).1 ∧
      (upsert_brands s items).2.skipped =
        items.length - (items.map BrandData.id).dedup.length ∧
      (upsert_brands s items).2.inserted +
        (upsert_brands s items).2.updated =
          (items.map BrandData.id).dedup.length) ∧
    (∀ (s : List Photo) (items : List PhotoData),
      (upsert_photos s items).1 =
        onConflictApply Photo.id PhotoData.id photoMk photoUpd s
          (dedupFirst PhotoData.id [] items).1 ∧
      (upsert_photos s items).2.skipped =
        items.length - (items.map PhotoData.id).dedup.length ∧
      (upsert_photos s items).2.inserted +
        (upsert_photos s items).2.updated =
          (items.map PhotoData.id).dedup.length) ∧
    (∀ (s : List PhotoCategory) (items : List PhotoCategoryData),
      (upsert_photo_categories s items).1 =
        (upsertLoop photoCategoryKey photoCategoryDataKey photoCategoryMk
          photoCategoryUpd s []
          (dedupFirst photoCategoryDataKey [] items).1).1 ∧
      (upsert_photo_categories s items).2.skipped =
        items.length - (items.map photoCategoryDataKey).dedup.length ∧
      (upsert_photo_categories s items).2.inserted +
        (upsert_photo_categories s items).2.updated =
          (items.map photoCategoryDataKey).dedup.length) :=
  ⟨brands_firstwins_counts, photos_firstwins_counts,
    photo_categories_firstwins_counts⟩

/-- C2 witness: the spec's concrete scenario — a stored row
`(spec=1, title=5, sub="")` named "A" and an incoming record named "B"
with the same stable key leaves exactly the corrected row; with an
incoming record named "A" only the value changes in place. -/
theorem claim_C2_stale_name_reconciliation_witness :
    ((upsert_param_values [⟨1, 5, "A", some (""), some ("w")⟩]
        [⟨1, 5, "B", some (""), some ("v")⟩]).1.filter (fun v =>
          decide ((v.specification_id, v.title_id, pvRowSub v) =
            (1, 5, pyTrunc 512 ((some ("")).getD (""))))) =
      [⟨1, 5, pyTrunc 512 ("B"), some (pyTrunc 512 ((some ("")).getD (""))),
        some ("v")⟩] ∧
      (⟨1, 5, "A", some (""), some ("w")⟩ : ParamValue) ∉
        (upsert_param_values [⟨1, 5, "A", some (""), some ("w")⟩]
          [⟨1, 5, "B", some (""), some ("v")⟩]).1 ∧
      (upsert_param_values [⟨1, 5, "A", some (""), some ("w")⟩]
        [⟨1, 5, "B", some (""), some ("v")⟩]).2 = ⟨1, 0, 0⟩) ∧
    (∃ pre post,
      [(⟨1, 5, "A", some (""), some ("w")⟩ : ParamValue)] =
        pre ++ (⟨1, 5, "A", some (""), some ("w")⟩ : ParamValue) :: post ∧
      (upsert_param_values [⟨1, 5, "A", some (""), some ("w")⟩]
        [⟨1, 5, "A", some (""), some ("v")⟩]).1 =
        pre ++ (⟨1, 5, "A", some (""), some ("v")⟩ : ParamValue) :: post ∧
      (upsert_param_values [⟨1, 5, "A", some (""), some ("w")⟩]
        [⟨1, 5, "A", some (""), some ("v")⟩]).2 = ⟨0, 1, 0⟩) := by
  constructor
  · exact (claim_C2_stale_name_reconciliation
      [⟨1, 5, "A", some (""), some ("w")⟩] ⟨1, 5, "A", some (""), some ("w")⟩
      ⟨1, 5, "B", some (""), some ("v")⟩ rfl rfl (by decide) (by decide)).1
      (by decide)
  · exact (claim_C2_stale_name_reconciliation
      [⟨1, 5, "A", some (""), some ("w")⟩] ⟨1, 5, "A", some (""), some ("w")⟩
      ⟨1, 5, "A", some (""), some ("v")⟩ rfl rfl (by decide) (by decide)).2
      (by decide)
